import Mathlib

/-!
Verification of the rainbond monitor/export worker (`mq.go`).

Go strings are modelled as lists of bytes (`Str := List Nat`), because the
source manipulates strings byte-wise (`len`, slicing, `strings.Split`) while
iterating runes only in explicit `for range` loops, which we model with a
faithful UTF-8 decoder.  External collaborators (pinyin transliteration, the
Han table, `envutil.GetMemoryType`, `sources.GenSaveImageName`) are passed in
as an explicit `Ext` record; random UUID generation is modelled as an explicit
supply of strings.
-/

namespace Rainbond

/-- A Go string: a list of byte values. -/
abbrev Str := List Nat

/-- UTF-8 encoding of a single character, as Go's `utf8.EncodeRune`. -/
def utf8EncodeChar (c : Char) : Str :=
  let n := c.toNat
  if n < 0x80 then [n]
  else if n < 0x800 then [0xC0 + n / 64, 0x80 + n % 64]
  else if n < 0x10000 then [0xE0 + n / 4096, 0x80 + (n / 64) % 64, 0x80 + n % 64]
  else [0xF0 + n / 262144, 0x80 + (n / 4096) % 64, 0x80 + (n / 64) % 64, 0x80 + n % 64]

/-- The bytes of a Lean string literal, UTF-8 encoded as Go stores strings. -/
def strBytes (s : String) : Str :=
  s.data.foldr (fun c acc => utf8EncodeChar c ++ acc) []

/-- U+FFFD, the replacement character Go produces for invalid encodings. -/
def replChar : Char := Char.ofNat 0xFFFD

/-- Is `b` a UTF-8 continuation byte? -/
def contByte (b : Nat) : Bool := decide (0x80 ≤ b ∧ b ≤ 0xBF)

/-- Decode one rune from byte `b` followed by `rest`, returning the rune and
the number of bytes consumed, with Go's `utf8.DecodeRune` accept ranges
(invalid sequences yield U+FFFD and consume one byte). -/
def decodeOne (b : Nat) (rest : Str) : Char × Nat :=
  if b ≤ 0x7F then (Char.ofNat b, 1)
  else if 0xC2 ≤ b ∧ b ≤ 0xDF then
    (match rest with
     | b1 :: _ =>
        if contByte b1 then (Char.ofNat ((b - 0xC0) * 64 + (b1 - 0x80)), 2)
        else (replChar, 1)
     | [] => (replChar, 1))
  else if 0xE0 ≤ b ∧ b ≤ 0xEF then
    (match rest with
     | b1 :: b2 :: _ =>
        let lo := if b = 0xE0 then 0xA0 else 0x80
        let hi := if b = 0xED then 0x9F else 0xBF
        if (decide (lo ≤ b1 ∧ b1 ≤ hi) && contByte b2) then
          (Char.ofNat ((b - 0xE0) * 4096 + (b1 - 0x80) * 64 + (b2 - 0x80)), 3)
        else (replChar, 1)
     | _ => (replChar, 1))
  else if 0xF0 ≤ b ∧ b ≤ 0xF4 then
    (match rest with
     | b1 :: b2 :: b3 :: _ =>
        let lo := if b = 0xF0 then 0x90 else 0x80
        let hi := if b = 0xF4 then 0x8F else 0xBF
        if (decide (lo ≤ b1 ∧ b1 ≤ hi) && contByte b2 && contByte b3) then
          (Char.ofNat ((b - 0xF0) * 262144 + (b1 - 0x80) * 4096 + (b2 - 0x80) * 64 + (b3 - 0x80)), 4)
        else (replChar, 1)
     | _ => (replChar, 1))
  else (replChar, 1)

/-- Fuel-driven rune decoding loop (fuel bounds the number of runes). -/
def utf8DecodeFuel : Nat → Str → List Char
  | 0, _ => []
  | _, [] => []
  | fuel + 1, b :: rest =>
      let cn := decodeOne b rest
      cn.1 :: utf8DecodeFuel fuel (rest.drop (cn.2 - 1))

/-- The runes of a Go string, as produced by `for range` over the string. -/
def utf8Decode (l : Str) : List Char := utf8DecodeFuel l.length l

/-- Go `unicode.IsSpace`: the White_Space code points. -/
def isGoSpace (c : Char) : Bool :=
  let n := c.toNat
  decide (n = 9 ∨ n = 10 ∨ n = 11 ∨ n = 12 ∨ n = 13 ∨ n = 32 ∨ n = 0x85 ∨ n = 0xA0 ∨
    n = 0x1680 ∨ (0x2000 ≤ n ∧ n ≤ 0x200A) ∨ n = 0x2028 ∨ n = 0x2029 ∨
    n = 0x202F ∨ n = 0x205F ∨ n = 0x3000)

/-- Drop leading white-space runes (fuel-driven). -/
def trimLeftFuel : Nat → Str → Str
  | 0, l => l
  | _, [] => []
  | fuel + 1, b :: rest =>
      let cn := decodeOne b rest
      if isGoSpace cn.1 then trimLeftFuel fuel (rest.drop (cn.2 - 1))
      else b :: rest

/-- Drop trailing white-space runes (fuel-driven, decoding forward). -/
def trimRightFuel : Nat → Str → Str
  | 0, l => l
  | _, [] => []
  | fuel + 1, b :: rest =>
      let cn := decodeOne b rest
      let t := trimRightFuel fuel (rest.drop (cn.2 - 1))
      if t = [] && isGoSpace cn.1 then []
      else (b :: rest).take cn.2 ++ t

/-- Go `strings.TrimSpace`. -/
def goTrimSpace (l : Str) : Str :=
  let left := trimLeftFuel l.length l
  trimRightFuel left.length left

/-- Prepend a byte to the first chunk of a split result. -/
def consCurrent (b : Nat) : List Str → List Str
  | [] => [[b]]
  | s :: ss => (b :: s) :: ss

/-- Go `strings.Split(s, sep)` for the three-byte separator backslash,
backslash, `u` used by `unicode2zh`. -/
def splitOnMarker : Str → List Str
  | [] => [[]]
  | 92 :: 92 :: 117 :: rest => [] :: splitOnMarker rest
  | b :: rest => consCurrent b (splitOnMarker rest)

/-- Is `b` the byte of an ASCII hexadecimal digit? -/
def isHexDigit (b : Nat) : Bool :=
  decide ((48 ≤ b ∧ b ≤ 57) ∨ (97 ≤ b ∧ b ≤ 102) ∨ (65 ≤ b ∧ b ≤ 70))

/-- Value of an ASCII hexadecimal digit byte. -/
def hexVal (b : Nat) : Nat :=
  if 48 ≤ b ∧ b ≤ 57 then b - 48
  else if 97 ≤ b ∧ b ≤ 102 then b - 97 + 10
  else b - 65 + 10

/-- Go `strconv.ParseInt(s, 16, 32)`: an optional sign followed by a nonempty
run of hex digits, with the int32 range check. -/
def parseHexInt32 (s : Str) : Option Int :=
  let core : Str → Option Nat := fun digits =>
    if digits = [] then none
    else if digits.all isHexDigit then
      some (digits.foldl (fun acc b => acc * 16 + hexVal b) 0)
    else none
  match s with
  | 43 :: rest =>
      (core rest).bind fun n => if (n : Int) ≤ 0x7FFFFFFF then some (n : Int) else none
  | 45 :: rest =>
      (core rest).bind fun n => if (n : Int) ≤ 0x80000000 then some (-(n : Int)) else none
  | _ =>
      (core s).bind fun n => if (n : Int) ≤ 0x7FFFFFFF then some (n : Int) else none

/-- Go `fmt.Sprintf("%c", zh)`: the UTF-8 bytes of code point `zh`, or the
replacement character if `zh` is not a valid rune. -/
def runeBytes (zh : Int) : Str :=
  if 0 ≤ zh ∧ zh ≤ 0x10FFFF ∧ ¬ (0xD800 ≤ zh ∧ zh ≤ 0xDFFF) then
    utf8EncodeChar (Char.ofNat zh.toNat)
  else [0xEF, 0xBF, 0xBD]

/-- The contribution of one post-marker segment inside `unicode2zh`: segments
of byte length at most 3 are dropped, longer ones are decoded from their first
four bytes as hex (or kept verbatim when the parse fails). -/
def unicode2zhSegment (char : Str) : Str :=
  if char.length > 3 then
    match parseHexInt32 (char.take 4) with
    | none => char
    | some zh => runeBytes zh ++ char.drop 4
  else []

/-- `unicode2zh`: split on the literal two-backslash-`u` marker, decode each
following segment, and trim surrounding white space. -/
def unicode2zh (uText : Str) : Str :=
  let context := (splitOnMarker uText).enum.foldl
    (fun context ic =>
      if ic.1 < 1 then ic.2
      else context ++ unicode2zhSegment ic.2)
    []
  goTrimSpace context

/-- External collaborators of the export engine, specified only at their
interface boundary: the Han table and pinyin transliteration used by
`composeName`, `envutil.GetMemoryType`, and `sources.GenSaveImageName`. -/
structure Ext where
  isHan : Char → Bool
  pinyin : Char → Str
  memoryType : Int → Str
  genImage : Str → Str

/-- Does the single byte `b` match the regular expression
`[a-zA-Z0-9._-]`?  (`composeName` feeds it `byte(runeValue)`.) -/
def byteClassMatch (b : Nat) : Bool :=
  decide ((48 ≤ b ∧ b ≤ 57) ∨ (65 ≤ b ∧ b ≤ 90) ∨ (97 ≤ b ∧ b ≤ 122) ∨
    b = 46 ∨ b = 95 ∨ b = 45)

/-- `composeName`: decode the display name, then per rune either
transliterate Han characters to pinyin, keep the rune when the regex matches
its low byte (the source converts the rune with `byte(runeValue)`), or
replace it by an underscore. -/
def composeName (E : Ext) (uText : Str) : Str :=
  let str := unicode2zh uText
  (utf8Decode str).foldl
    (fun res c =>
      if E.isHan c then res ++ E.pinyin c
      else if byteClassMatch (c.toNat % 256) then res ++ utf8EncodeChar c
      else res ++ [95])
    []

/-! ### Go maps as association lists

A Go `map[string]V` is modelled as an association list with distinct keys:
assignment replaces the value in place or appends a fresh entry, lookup finds
the (unique) entry. -/

/-- Go map assignment `m[k] = v`. -/
def envSet {α : Type} (m : List (Str × α)) (k : Str) (v : α) : List (Str × α) :=
  if m.any (fun p => p.1 = k) then
    m.map (fun p => if p.1 = k then (k, v) else p)
  else m ++ [(k, v)]

/-- Go map lookup returning an optional value. -/
def envLookup? {α : Type} (m : List (Str × α)) (k : Str) : Option α :=
  (m.find? (fun p => p.1 = k)).map (fun p => p.2)

/-- Go map lookup `m[k]` with the zero value for a missing key. -/
def lookupD {α : Type} (m : List (Str × α)) (k : Str) (d : α) : α :=
  (envLookup? m k).getD d

/-- The keys of an association list. -/
def keysOf {α : Type} (m : List (Str × α)) : List Str := m.map (fun p => p.1)

/-- An environment: a Go `map[string]string`. -/
abbrev EnvMap := List (Str × Str)

/-! ### The application manifest data model

One record per component, carrying both the fields the legacy `gjson` view
reads (`service_cname`, `service_share_uuid`, `port_map_list`, `memory`,
`service_env_map_list`, `service_connect_info_map_list`,
`dep_service_map_list`, `cmd`, `share_image`) and the fields the structured
`ram` view reads (`ServiceCname`, `ServiceShareID`, `ServiceVolumeMapList`,
`MntReleationList`); both views parse the same `metadata.json`. -/

/-- `ramv1alpha1.ComponentVolume`. -/
structure ComponentVolume where
  volumeName : Str
  volumeMountPath : Str
  volumeType : Str
  fileContent : Str
deriving DecidableEq

/-- One entry of `MntReleationList`: a dependency volume-binding request. -/
structure VolumeRelation where
  shareServiceUUID : Str
  volumeName : Str
  volumeMountDir : Str
deriving DecidableEq

/-- One component of the application manifest. -/
structure Component where
  serviceCname : Str
  serviceShareID : Str
  shareImage : Str
  memory : Int
  portList : List Str
  envList : List (Str × Str)
  connectList : List (Str × Str)
  depServiceKeys : List Str
  volumes : List ComponentVolume
  mntReleationList : List VolumeRelation
  cmd : Str
deriving DecidableEq

/-- `ramv1alpha1.ConfigFileVolumeType`. -/
def configFileVolumeType : Str := strBytes "config-file"

/-! ### The service-name registry (`buildServiceNames`) -/

/-- The loop of `buildServiceNames`: `names` maps share identifiers to final
names, `set` records the names already taken, `us` supplies the
`util.NewUUID()` randomness consumed on collision. -/
def bsnGo (E : Ext) : List Str → List (Str × Str) → List Str → List Component → List (Str × Str)
  | _, names, _, [] => names
  | us, names, set, c :: rest =>
      let name := composeName E c.serviceCname
      if name ∈ set then
        let name' := name ++ 45 :: (us.headD []).take 4
        bsnGo E us.tail (envSet names c.serviceShareID name') (name' :: set) rest
      else
        bsnGo E us (envSet names c.serviceShareID name) (name :: set) rest

/-- `dockerCompose.buildServiceNames`: share identifier to unique sanitized
name, collisions broken by a dash and four random characters. -/
def buildServiceNames (E : Ext) (us : List Str) (comps : List Component) : List (Str × Str) :=
  bsnGo E us [] [] comps

/-- `dockerCompose.GetServiceName` (Go map lookup, zero value on a miss). -/
def GetServiceName (names : List (Str × Str)) (shareServiceUUID : Str) : Str :=
  lookupD names shareServiceUUID []

/-! ### Go `path.Clean` / `path.Join` -/

/-- Split a byte string on `/` (byte 47). -/
def splitSlash : Str → List Str
  | [] => [[]]
  | b :: rest => if b = 47 then [] :: splitSlash rest else consCurrent b (splitSlash rest)

/-- Re-join path segments with `/`. -/
def joinSlash : List Str → Str
  | [] => []
  | [s] => s
  | s :: rest => s ++ 47 :: joinSlash rest

/-- One step of `path.Clean`'s segment processing: drop empty and dot
segments, let a dot-dot segment pop the previous one (kept literally at the
start of a relative path, dropped at the root). -/
def cleanPush (rooted : Bool) (acc : List Str) (seg : Str) : List Str :=
  if seg = [] ∨ seg = [46] then acc
  else if seg = [46, 46] then
    match acc with
    | [] => if rooted then [] else [[46, 46]]
    | a :: rest => if a = [46, 46] then seg :: acc else rest
  else seg :: acc

/-- The segment recombination of `path.Clean`. -/
def goCleanAux (rooted : Bool) (pieces : List Str) : Str :=
  if rooted then 47 :: joinSlash ((pieces.foldl (cleanPush rooted) []).reverse)
  else if (pieces.foldl (cleanPush rooted) []).reverse = [] then [46]
  else joinSlash ((pieces.foldl (cleanPush rooted) []).reverse)

/-- Go `path.Clean`. -/
def goClean (p : Str) : Str :=
  if p = [] then [46]
  else goCleanAux (decide (p.head? = some 47)) (splitSlash p)

/-- Go `path.Join` restricted to two elements, as used by `buildVolume`. -/
def goJoin (a b : Str) : Str :=
  if a = [] ∧ b = [] then []
  else if a = [] then goClean b
  else goClean (a ++ 47 :: b)

/-! ### Volume building (`buildVolume`, `buildVolumes`, `GetGlobalVolumes`) -/

/-- `dockerCompose.buildVolume`: returns the service bind string, the compose
volume (config-file path or named volume), and whether the volume is a
config file. -/
def buildVolume (serviceName : Str) (volume : ComponentVolume) : Str × Str × Bool :=
  let volumePath := volume.volumeMountPath
  if volume.volumeType = configFileVolumeType then
    let configFilePath := 46 :: 47 :: goJoin serviceName volume.volumeMountPath
    (configFilePath ++ 58 :: volumePath, configFilePath, true)
  else
    let volumeName := serviceName ++ 95 :: volume.volumeName
    (volumeName ++ 58 :: volumePath, volumeName, false)

/-- The own-volume loop body of `buildVolumes` for one component: threads the
`volumeMaps` registry and the global volume list, and collects the
component's bind strings in order. -/
def ownVols (serviceName shareID : Str) (maps : List (Str × Str)) (globals : List Str) :
    List ComponentVolume → List (Str × Str) × List Str × List Str
  | [] => (maps, globals, [])
  | v :: rest =>
      ((ownVols serviceName shareID
          (if (buildVolume serviceName v).2.1 ≠ [] then
            envSet maps (shareID ++ v.volumeName) (buildVolume serviceName v).2.1
          else maps)
          (if (buildVolume serviceName v).2.1 ≠ [] ∧ ¬ (buildVolume serviceName v).2.2 then
            globals ++ [(buildVolume serviceName v).2.1]
          else globals) rest).1,
       (ownVols serviceName shareID
          (if (buildVolume serviceName v).2.1 ≠ [] then
            envSet maps (shareID ++ v.volumeName) (buildVolume serviceName v).2.1
          else maps)
          (if (buildVolume serviceName v).2.1 ≠ [] ∧ ¬ (buildVolume serviceName v).2.2 then
            globals ++ [(buildVolume serviceName v).2.1]
          else globals) rest).2.1,
       (buildVolume serviceName v).1 ::
        (ownVols serviceName shareID
          (if (buildVolume serviceName v).2.1 ≠ [] then
            envSet maps (shareID ++ v.volumeName) (buildVolume serviceName v).2.1
          else maps)
          (if (buildVolume serviceName v).2.1 ≠ [] ∧ ¬ (buildVolume serviceName v).2.2 then
            globals ++ [(buildVolume serviceName v).2.1]
          else globals) rest).2.2)

/-- First pass of `buildVolumes`: every component's own volumes. -/
def volPass1 (names : List (Str × Str)) (maps : List (Str × Str)) (globals : List Str)
    (compVols : List (Str × List Str)) :
    List Component → List (Str × Str) × List Str × List (Str × List Str)
  | [] => (maps, globals, compVols)
  | c :: rest =>
      volPass1 names
        (ownVols (GetServiceName names c.serviceShareID) c.serviceShareID maps globals
          c.volumes).1
        (ownVols (GetServiceName names c.serviceShareID) c.serviceShareID maps globals
          c.volumes).2.1
        (envSet compVols c.serviceShareID
          (ownVols (GetServiceName names c.serviceShareID) c.serviceShareID maps globals
            c.volumes).2.2)
        rest

/-- Second pass of `buildVolumes`: dependent volume bindings; a request whose
(share identifier, volume name) pair was never registered is skipped with a
warning. -/
def volPass2 (maps : List (Str × Str)) (compVols : List (Str × List Str)) :
    List Component → List (Str × List Str)
  | [] => compVols
  | c :: rest =>
      volPass2 maps
        (envSet compVols c.serviceShareID
          (c.mntReleationList.foldl
            (fun acc dvol =>
              if lookupD maps (dvol.shareServiceUUID ++ dvol.volumeName) [] = [] then acc
              else acc ++
                [lookupD maps (dvol.shareServiceUUID ++ dvol.volumeName) [] ++
                  58 :: dvol.volumeMountDir])
            (lookupD compVols c.serviceShareID [])))
        rest

/-- `dockerCompose.buildVolumes`: per-component bind lists and the global
named-volume list. -/
def buildVolumes (names : List (Str × Str)) (comps : List Component) :
    List (Str × List Str) × List Str :=
  let p1 := volPass1 names [] [] [] comps
  (volPass2 p1.1 p1.2.2 comps, p1.2.1)

/-- `dockerCompose.GetServiceVolumes`. -/
def GetServiceVolumes (compVols : List (Str × List Str)) (shareServiceUUID : Str) : List Str :=
  lookupD compVols shareServiceUUID []

/-- `dockerCompose.GetGlobalVolumes`: the global volume list as a map to
`GlobalVolume` records (modelled by their `External` field, always false). -/
def GetGlobalVolumes (globalVolumes : List Str) : List (Str × Bool) :=
  globalVolumes.foldl (fun m vol => envSet m vol false) []

/-! ### Environment resolution (`buildDockerComposeYaml`, lines 767-805) -/

/-- The reserved placeholder token `**None**`. -/
def noneToken : Str := strBytes "**None**"

/-- The seed environment: `PORT` from the first declared port, if any, then
`MEMORY_SIZE` from the memory allocation. -/
def seedEnvs (E : Ext) (app : Component) : EnvMap :=
  let m : EnvMap := []
  let m := match app.portList.head? with
    | some p => envSet m (strBytes "PORT") p
    | none => m
  envSet m (strBytes "MEMORY_SIZE") (E.memoryType app.memory)

/-- Overlay of the private environment entries (`service_env_map_list`): a
value equal to the placeholder token is replaced by the first eight
characters of a fresh UUID from the supply `us`. -/
def privEnvStep (us : List Str) (m : EnvMap) : List (Str × Str) → EnvMap × List Str
  | [] => (m, us)
  | kv :: rest =>
      if kv.2 = noneToken then
        privEnvStep us.tail (envSet m kv.1 ((us.headD []).take 8)) rest
      else
        privEnvStep us (envSet m kv.1 kv.2) rest

/-- Overlay a list of key/value entries onto an environment. -/
def overlayEnvList (m : EnvMap) (l : List (Str × Str)) : EnvMap :=
  l.foldl (fun m kv => envSet m kv.1 kv.2) m

/-- `getPublicEnvByKey`: the public environment of the first manifest record
whose share identifier equals `serviceKey`, empty when there is none. -/
def getPublicEnvByKey (serviceKey : Str) (apps : List Component) : EnvMap :=
  match apps.find? (fun a => a.serviceShareID = serviceKey) with
  | some app => overlayEnvList [] app.connectList
  | none => []

/-- The dependency overlay: for every dependency edge, in order, overlay the
depended-on record's public environment. -/
def depEnvStep (apps : List Component) (m : EnvMap) (deps : List Str) : EnvMap :=
  deps.foldl (fun m k => overlayEnvList m (getPublicEnvByKey k apps)) m

/-- The environment of one component after seeding and all three overlay
phases (private, public, dependencies), before variable substitution, with
the remaining UUID supply. -/
def mergedEnvS (E : Ext) (us : List Str) (apps : List Component) (app : Component) :
    EnvMap × List Str :=
  let p := privEnvStep us (seedEnvs E app) app.envList
  (depEnvStep apps (overlayEnvList p.1 app.connectList) app.depServiceKeys, p.2)

/-- The merged environment (dropping the supply). -/
def mergedEnv (E : Ext) (us : List Str) (apps : List Component) (app : Component) : EnvMap :=
  (mergedEnvS E us apps app).1

/-- Modelled from the spec: `util.ParseVariable` is not part of this file's
source; per the spec it replaces dollar-brace `KEY` brace references in a
value by the current value of `KEY` in the same map (a reference to an
unbound key is kept literally).  `acc` accumulates the bytes of a reference
key once an opening marker was seen. -/
inductive PvMode where
  | lit
  | dollar
  | key (acc : Str)

def pvGo (m : EnvMap) : Str → PvMode → Str
  | [], .lit => []
  | [], .dollar => [36]
  | [], .key acc => 36 :: 123 :: acc.reverse
  | b :: rest, .lit => if b = 36 then pvGo m rest .dollar else b :: pvGo m rest .lit
  | b :: rest, .dollar =>
      if b = 123 then pvGo m rest (.key [])
      else if b = 36 then 36 :: pvGo m rest .dollar
      else 36 :: b :: pvGo m rest .lit
  | b :: rest, .key acc =>
      if b = 125 then
        (match envLookup? m acc.reverse with
         | some v => v
         | none => 36 :: 123 :: acc.reverse ++ [125]) ++ pvGo m rest .lit
      else pvGo m rest (.key (b :: acc))

/-- Modelled from the spec: `util.ParseVariable value envs`. -/
def parseVariable (value : Str) (envs : EnvMap) : Str := pvGo envs value .lit

/-- The final substitution pass of `buildDockerComposeYaml` (lines 802-805):
the Go code iterates the `envs` map in the map's enumeration order and
mutates it in place; `order` makes that enumeration order explicit. -/
def substPass (order : List Str) (m : EnvMap) : EnvMap :=
  order.foldl
    (fun m k =>
      match envLookup? m k with
      | some v => envSet m k (parseVariable v m)
      | none => m)
    m

/-- The fully resolved environment of one component under enumeration order
`order`. -/
def resolvedEnv (E : Ext) (us : List Str) (order : List Str) (apps : List Component)
    (app : Component) : EnvMap :=
  substPass order (mergedEnv E us apps app)

/-! ### Service construction (`buildDockerComposeYaml`, lines 788-824) -/

/-- `getDependedService`: the display name of the first record whose share
identifier is `key`, or the empty string. -/
def getDependedService (key : Str) (apps : List Component) : Str :=
  match apps.find? (fun a => a.serviceShareID = key) with
  | some app => app.serviceCname
  | none => []

/-- The `depServices` list of one component: for every dependency edge whose
depended-on record resolves to a nonempty display name, the sanitized
(but registry-independent) `composeName` of that display name. -/
def depServicesOf (E : Ext) (apps : List Component) (app : Component) : List Str :=
  app.depServiceKeys.foldl
    (fun l k =>
      if getDependedService k apps = [] then l
      else l ++ [composeName E (getDependedService k apps)])
    []

/-- One service entry of the generated compose file. -/
structure ComposeService where
  image : Str
  containerName : Str
  restart : Str
  networkMode : Str
  volumes : List Str
  command : Str
  environment : EnvMap
  dependsOn : List Str
  logDriver : Str
  logMaxSize : Str
  logMaxFile : Str

/-- The service entry built for one manifest record. -/
def buildService (E : Ext) (us : List Str) (order : List Str) (apps : List Component)
    (names : List (Str × Str)) (compVols : List (Str × List Str)) (app : Component) :
    ComposeService :=
  { image := E.genImage app.shareImage
    containerName := GetServiceName names app.serviceShareID
    restart := strBytes "always"
    networkMode := strBytes "host"
    volumes := GetServiceVolumes compVols app.serviceShareID
    command := app.cmd
    environment := resolvedEnv E us order apps app
    dependsOn := depServicesOf E apps app
    logDriver := strBytes "json-file"
    logMaxSize := strBytes "5m"
    logMaxFile := strBytes "2" }

/-- The services map of the compose file: one entry per manifest record,
keyed by the registry name (`GetServiceName`); the per-record environment
enumeration order is supplied by `ord`. -/
def buildServices (E : Ext) (usEnv : List Str) (ord : Component → List Str)
    (apps : List Component) (names : List (Str × Str)) (compVols : List (Str × List Str)) :
    List (Str × ComposeService) :=
  apps.foldl
    (fun services app =>
      envSet services (GetServiceName names app.serviceShareID)
        (buildService E usEnv (ord app) apps names compVols app))
    []

/-! ### The freshness gate (`isLatest`) and the orchestrator decision -/

/-- The file-system facts `isLatest` consults: whether the checksum sidecar
`metadata.json.md5` exists, whether `md5sum -c` validates it against the
manifest, and whether the previously produced archive file exists. -/
structure ExportFS where
  md5FileExists : Bool
  md5Valid : Bool
  tarFileExists : Bool
deriving DecidableEq

/-- `isLatest`, mirroring the source's control flow: a missing sidecar means
not latest; a failing checksum means not latest whether or not the archive
file exists (its existence only selects the log message); a validating
checksum means latest, without looking at the archive. -/
def isLatest (fs : ExportFS) : Bool :=
  if ¬ fs.md5FileExists then false
  else if ¬ fs.md5Valid then
    if ¬ fs.tarFileExists then false else false
  else true

/-- The orchestrator's freshness decision in `exportRainbondAPP` and
`exportDockerCompose`: skip all work exactly when `isLatest`. -/
inductive ExportDecision where
  | skipped
  | ranPipeline
deriving DecidableEq

/-- The freshness short-circuit of the export orchestrator. -/
def exportDecision (fs : ExportFS) : ExportDecision :=
  if isLatest fs then .skipped else .ranPipeline

/-! ### The legacy manifest reader (`parseApps`) -/

/-- The legacy manifest document: the parsed `apps` array. -/
structure LegacyMeta where
  apps : List Component
deriving DecidableEq

/-- `parseApps`: reading the manifest file is modelled by its optional
result; a missing or unreadable file is an error, a parsed document with
fewer than one app record is an error, otherwise the app list is returned. -/
def parseApps (readResult : Option LegacyMeta) : Except Str (List Component) :=
  match readResult with
  | none => .error (strBytes "Failed to read metadata file")
  | some doc =>
      if doc.apps.length < 1 then .error (strBytes "Not found app in the metadata")
      else .ok doc.apps

/-! ### Derived notions used to state the verified properties -/

/-- One step of a last-write-wins fold. -/
def lastStep {α β : Type} (f : α → Option β) (acc : Option β) (x : α) : Option β :=
  match f x with
  | some v => some v
  | none => acc

/-- The last `some` produced by `f` along `l` (later elements win), the shape
of every last-write-wins overlay in the source. -/
def lastSome? {α β : Type} (f : α → Option β) (l : List α) : Option β :=
  l.foldl (lastStep f) none

/-- The value of the last entry of `l` binding key `k`. -/
def lastVal (l : List (Str × Str)) (k : Str) : Option Str :=
  lastSome? (fun kv => if kv.1 = k then some kv.2 else none) l

/-- The value for key `K` contributed by the last dependency edge whose
depended-on public environment binds `K`. -/
def lastDepValue (apps : List Component) (deps : List Str) (K : Str) : Option Str :=
  lastSome? (fun dk => envLookup? (getPublicEnvByKey dk apps) K) deps

/-- A component's own environment view: seed plus private entries plus its
own public entries, before the dependency overlay. -/
def ownMergedEnv (E : Ext) (us : List Str) (app : Component) : EnvMap :=
  overlayEnvList (privEnvStep us (seedEnvs E app) app.envList).1 app.connectList

/-- A well-formed path segment: nonempty, not a dot segment, slash-free
(every name `composeName` is documented to produce satisfies this). -/
def goodSeg (s : Str) : Prop := s ≠ [] ∧ s ≠ [46] ∧ s ≠ [46, 46] ∧ 47 ∉ s

instance (s : Str) : Decidable (goodSeg s) := by
  unfold goodSeg
  infer_instance

/-- A clean absolute mount path: a slash followed by well-formed segments. -/
def cleanAbsPath (p : Str) : Bool :=
  match p with
  | 47 :: r => (splitSlash r).all (fun seg => decide (seg ≠ [] ∧ seg ≠ [46] ∧ seg ≠ [46, 46]))
  | _ => false

/-- Does a byte string consist of one or more characters matching
`[a-zA-Z0-9._-]`, the documented shape of `composeName` output? -/
def validServiceName (s : Str) : Bool :=
  !(utf8Decode s).isEmpty && (utf8Decode s).all (fun c => byteClassMatch c.toNat)

/-- The `volumeMaps` registry built by the first pass of `buildVolumes`. -/
def volumeMapsOf (names : List (Str × Str)) (comps : List Component) : List (Str × Str) :=
  (volPass1 names [] [] [] comps).1

/-- Resolution of one dependency volume-binding request against a
`volumeMaps` registry: `none` models the logged-and-skipped case. -/
def resolveDepWith (maps : List (Str × Str)) (d : VolumeRelation) : Option Str :=
  if lookupD maps (d.shareServiceUUID ++ d.volumeName) [] = [] then none
  else some (lookupD maps (d.shareServiceUUID ++ d.volumeName) [] ++ 58 :: d.volumeMountDir)

/-- Resolution of one dependency volume-binding request in an export. -/
def resolveDepVolume (names : List (Str × Str)) (comps : List Component)
    (d : VolumeRelation) : Option Str :=
  resolveDepWith (volumeMapsOf names comps) d

/-- The global named volumes one component contributes: the generated names
of its non-config volumes, in order. -/
def globContrib (names : List (Str × Str)) (c : Component) : List Str :=
  c.volumes.filterMap (fun v =>
    if (buildVolume (GetServiceName names c.serviceShareID) v).2.2 then none
    else some (buildVolume (GetServiceName names c.serviceShareID) v).2.1)

/-- The bind strings a component's own volumes produce, in declaration
order. -/
def ownBindsOf (names : List (Str × Str)) (c : Component) : List Str :=
  c.volumes.map (fun v => (buildVolume (GetServiceName names c.serviceShareID) v).1)

/-! ### Concrete instances used as counterexamples and witnesses -/

/-- Modelled from the spec: a concrete instance of the external
collaborators (the Han test restricted to the main CJK block, a stub pinyin
table, a stub memory-class label, identity image renaming), used only to
evaluate the engine on concrete inputs. -/
def extSample : Ext :=
  { isHan := fun c => decide (0x4E00 ≤ c.toNat ∧ c.toNat ≤ 0x9FFF)
    pinyin := fun _ => []
    memoryType := fun _ => strBytes "small"
    genImage := fun s => s }

/-- A component with every field empty, the base of the concrete samples. -/
def emptyComponent : Component :=
  { serviceCname := [], serviceShareID := [], shareImage := [], memory := 128,
    portList := [], envList := [], connectList := [], depServiceKeys := [],
    volumes := [], mntReleationList := [], cmd := [] }

/-- C1 sample: component `A` publicly exposes `K=av`. -/
def c1A : Component :=
  { emptyComponent with
      serviceCname := strBytes "A", serviceShareID := strBytes "a",
      connectList := [(strBytes "K", strBytes "av")] }

/-- C1 sample: component `B` privately sets `K=bv` and depends on `A`. -/
def c1B : Component :=
  { emptyComponent with
      serviceCname := strBytes "B", serviceShareID := strBytes "b",
      envList := [(strBytes "K", strBytes "bv")],
      depServiceKeys := [strBytes "a"] }

/-- C1 sample: component `B` with the same environment but no dependency. -/
def c1Bsolo : Component :=
  { emptyComponent with
      serviceCname := strBytes "B2", serviceShareID := strBytes "b2",
      envList := [(strBytes "K", strBytes "bv")] }

/-- C3 sample: a merged environment with a reference chain. -/
def c3App : Component :=
  { emptyComponent with
      serviceCname := strBytes "C3", serviceShareID := strBytes "c3",
      envList := [([65], [36, 123, 66, 125]), ([66], [36, 123, 67, 125]), ([67], [49])] }

/-- C4 samples: two components whose display names collide, and a third
depending on the later one. -/
def c4X1 : Component :=
  { emptyComponent with serviceCname := strBytes "x", serviceShareID := strBytes "u1" }

/-- See `c4X1`. -/
def c4X2 : Component :=
  { emptyComponent with serviceCname := strBytes "x", serviceShareID := strBytes "u2" }

/-- See `c4X1`. -/
def c4Y : Component :=
  { emptyComponent with
      serviceCname := strBytes "y", serviceShareID := strBytes "u3",
      depServiceKeys := [strBytes "u2"] }

/-- C4 witness sample: collision-free components with one dependency. -/
def c4Web : Component :=
  { emptyComponent with serviceCname := strBytes "web", serviceShareID := strBytes "w" }

/-- See `c4Web`. -/
def c4Db : Component :=
  { emptyComponent with
      serviceCname := strBytes "db", serviceShareID := strBytes "d",
      depServiceKeys := [strBytes "w"] }

/-- C5 sample: a display name whose single rune U+0141 has the low byte of
an allowed ASCII character. -/
def c5Comp : Component :=
  { emptyComponent with serviceCname := strBytes "Ł", serviceShareID := strBytes "u1" }

/-- C6/C7 sample: a component owning one config-file volume and one regular
volume. -/
def c6App : Component :=
  { emptyComponent with
      serviceCname := strBytes "app", serviceShareID := strBytes "u1",
      volumes := [⟨strBytes "cfg", strBytes "/etc/app/conf.yml", strBytes "config-file", strBytes "hi"⟩,
        ⟨strBytes "data", strBytes "/var/lib", strBytes "share-file", []⟩] }

/-- C6/C7 sample: a dependent requesting one declared and one undeclared
volume of `c6App`. -/
def c6Dep : Component :=
  { emptyComponent with
      serviceCname := strBytes "dep", serviceShareID := strBytes "u2",
      mntReleationList := [⟨strBytes "u1", strBytes "data", strBytes "/mnt/a-data"⟩,
        ⟨strBytes "u1", strBytes "nosuch", strBytes "/mnt/x"⟩] }

/-- C7 sample: component with share identifier `a` declaring no volumes. -/
def t7A : Component :=
  { emptyComponent with
      serviceCname := strBytes "a", serviceShareID := strBytes "a" }

/-- C7 sample: an unrelated component with share identifier `ab` declaring a
regular volume `data`; its registry key is the concatenation
`ab ++ data = abdata`. -/
def t7AB : Component :=
  { emptyComponent with
      serviceCname := strBytes "cab", serviceShareID := strBytes "ab",
      volumes := [⟨strBytes "data", strBytes "/data", strBytes "share-file", []⟩] }

/-- C7 sample: a dependent requesting volume `bdata` of component `a`, a
name `a` never declared; the lookup key is the concatenation
`a ++ bdata = abdata`. -/
def t7B : Component :=
  { emptyComponent with
      serviceCname := strBytes "b", serviceShareID := strBytes "b",
      mntReleationList := [⟨strBytes "a", strBytes "bdata", strBytes "/mnt"⟩] }

/-- C8 witness sample: a document with one app record. -/
def c8Doc : LegacyMeta := { apps := [c1A] }

end Rainbond

namespace Mq

open Rainbond (Str)

/-- ASCII white-space trim of one endpoint address. -/
def trimAscii (s : Str) : Str :=
  let ws : List Nat := [9, 10, 11, 12, 13, 32]
  ((s.dropWhile (fun b => b ∈ ws)).reverse.dropWhile (fun b => b ∈ ws)).reverse

/-- Lexicographic byte order on endpoint addresses. -/
def ltStr : Str → Str → Bool
  | [], [] => false
  | [], _ :: _ => true
  | _ :: _, [] => false
  | a :: s, b :: t => if a < b then true else if b < a then false else ltStr s t

/-- Sorted insertion of one endpoint address. -/
def insertSorted (a : Str) : List Str → List Str
  | [] => [a]
  | b :: rest => if ltStr a b then a :: b :: rest else b :: insertSorted a rest

/-- Insertion sort for endpoint addresses. -/
def sortStrs : List Str → List Str
  | [] => []
  | a :: rest => insertSorted a (sortStrs rest)

/-- Drop adjacent duplicates of a sorted list. -/
def dedupAdjacent : List Str → List Str
  | [] => []
  | [a] => [a]
  | a :: b :: rest =>
      if a = b then dedupAdjacent (b :: rest) else a :: dedupAdjacent (b :: rest)

/-- Modelled from the spec: `utils.TrimAndSort` is not part of this file's
source; per the spec it produces the trimmed, sorted, deduplicated list of
endpoint addresses. -/
def trimAndSort (endpoints : List Str) : List Str :=
  dedupAdjacent (sortStrs (endpoints.map trimAscii))

/-- The state of the `Mq` callback: the endpoint list stored by the previous
call. -/
structure MqState where
  sortedEndpoints : List Str
deriving DecidableEq

/-- `Mq.UpdateEndpoints` on the extracted endpoint addresses: recompute the
trimmed sorted list; if it equals the stored one (`utils.ArrCompare`),
return without publishing; otherwise store it and republish the scrape
configuration.  The boolean records whether `Prometheus.UpdateScrape` was
called. -/
def UpdateEndpoints (s : MqState) (endpoints : List Str) : MqState × Bool :=
  let newArr := trimAndSort endpoints
  if s.sortedEndpoints = newArr then (s, false)
  else ({ sortedEndpoints := newArr }, true)

end Mq

namespace Rainbond

/-! ### Lemmas about the Go-map model -/

theorem envLookup?_nil {α : Type} (k : Str) : envLookup? ([] : List (Str × α)) k = none := rfl

theorem envLookup?_cons_pos {α : Type} (p : Str × α) (t : List (Str × α)) (k : Str)
    (hk : p.1 = k) : envLookup? (p :: t) k = some p.2 := by
  simp [envLookup?, List.find?, hk]

theorem envLookup?_cons_neg {α : Type} (p : Str × α) (t : List (Str × α)) (k : Str)
    (hk : ¬ p.1 = k) : envLookup? (p :: t) k = envLookup? t k := by
  simp [envLookup?, List.find?, hk]

theorem lookup_map_set {α : Type} (m : List (Str × α)) (k k' : Str) (v : α) :
    envLookup? (m.map (fun p => if p.1 = k then (k, v) else p)) k' =
      if k' = k then (if m.any (fun p => p.1 = k) then some v else none)
      else envLookup? m k' := by
  induction m with
  | nil => by_cases h : k' = k <;> simp [envLookup?, h]
  | cons a t ih =>
      simp only [List.map_cons, List.any_cons]
      by_cases h1 : a.1 = k
      · rw [if_pos h1]
        by_cases h2 : k' = k
        · subst h2
          rw [envLookup?_cons_pos _ _ _ rfl]
          simp [h1]
        · rw [envLookup?_cons_neg (k, v) _ k' (fun h => h2 h.symm), ih,
            envLookup?_cons_neg a t k' (fun h => h2 (h.symm.trans h1))]
          simp [h2]
      · rw [if_neg h1]
        by_cases h2 : k' = k
        · subst h2
          rw [envLookup?_cons_neg a _ k' h1, ih, envLookup?_cons_neg a t k' h1, if_pos rfl]
          simp only [decide_eq_false h1, Bool.false_or]
          simp
        · by_cases ha : a.1 = k'
          · rw [envLookup?_cons_pos a _ k' ha, envLookup?_cons_pos a t k' ha, if_neg h2]
          · rw [envLookup?_cons_neg a _ k' ha, envLookup?_cons_neg a t k' ha, ih]
            simp only [decide_eq_false h1, Bool.false_or]

theorem lookup_append_single {α : Type} (m : List (Str × α)) (k k' : Str) (v : α)
    (h : m.any (fun p => p.1 = k) = false) :
    envLookup? (m ++ [(k, v)]) k' = if k' = k then some v else envLookup? m k' := by
  induction m with
  | nil =>
      by_cases h2 : k' = k
      · rw [List.nil_append, envLookup?_cons_pos (k, v) [] k' h2.symm, if_pos h2]
      · rw [List.nil_append, envLookup?_cons_neg (k, v) [] k' (fun h' => h2 h'.symm), if_neg h2]
  | cons a t ih =>
      simp only [List.any_cons, Bool.or_eq_false_iff, decide_eq_false_iff_not] at h
      by_cases ha : a.1 = k'
      · have hkk : ¬ (k' = k) := fun hk => h.1 (ha.trans hk)
        rw [List.cons_append, envLookup?_cons_pos a _ k' ha, envLookup?_cons_pos a t k' ha,
          if_neg hkk]
      · rw [List.cons_append, envLookup?_cons_neg a _ k' ha, envLookup?_cons_neg a t k' ha]
        exact ih (by simpa using h.2)

/-- Go map assignment then lookup. -/
theorem envLookup?_envSet {α : Type} (m : List (Str × α)) (k : Str) (v : α) (k' : Str) :
    envLookup? (envSet m k v) k' = if k' = k then some v else envLookup? m k' := by
  by_cases hany : m.any (fun p => p.1 = k)
  · rw [envSet, if_pos hany, lookup_map_set, hany]
    simp
  · rw [envSet, if_neg hany, lookup_append_single]
    exact (Bool.not_eq_true _) ▸ hany

theorem keysOf_envSet {α : Type} (m : List (Str × α)) (k : Str) (v : α) :
    keysOf (envSet m k v) = if k ∈ keysOf m then keysOf m else keysOf m ++ [k] := by
  by_cases hany : m.any (fun p => p.1 = k)
  · have hm : k ∈ keysOf m := by
      rcases List.any_eq_true.mp hany with ⟨p, hp, he⟩
      exact (of_decide_eq_true he) ▸ List.mem_map_of_mem (fun p => p.1) hp
    rw [envSet, if_pos hany, if_pos hm]
    unfold keysOf
    rw [List.map_map]
    apply List.map_congr_left
    intro p _
    by_cases hp : p.1 = k <;> simp [hp]
  · have hm : k ∉ keysOf m := by
      intro hk
      rcases List.mem_map.mp hk with ⟨p, hp, he⟩
      exact (List.any_eq_true.not.mp hany) ⟨p, hp, decide_eq_true he⟩
    rw [envSet, if_neg hany, if_neg hm]
    unfold keysOf
    rw [List.map_append]
    rfl

theorem nodupKeys_envSet {α : Type} (m : List (Str × α)) (k : Str) (v : α)
    (h : (keysOf m).Nodup) : (keysOf (envSet m k v)).Nodup := by
  rw [keysOf_envSet]
  by_cases hm : k ∈ keysOf m
  · rwa [if_pos hm]
  · rw [if_neg hm]
    simpa [List.nodup_append] using ⟨h, hm⟩

/-! ### Last-write-wins overlays -/

theorem foldl_lastStep {α β : Type} (f : α → Option β) (l : List α) (init : Option β) :
    l.foldl (lastStep f) init = (lastSome? f l).orElse (fun _ => init) := by
  induction l generalizing init with
  | nil => simp [lastSome?, Option.none_orElse']
  | cons x t ih =>
      rw [List.foldl_cons, ih]
      have hx : lastSome? f (x :: t) = (lastSome? f t).orElse (fun _ => lastStep f none x) := by
        show (x :: t).foldl (lastStep f) none = _
        rw [List.foldl_cons, ih]
      rw [hx]
      cases hls : lastSome? f t <;> cases hfx : f x <;>
        simp [lastStep, hfx, Option.some_orElse', Option.none_orElse']

theorem lastSome?_cons {α β : Type} (f : α → Option β) (x : α) (t : List α) :
    lastSome? f (x :: t) = (lastSome? f t).orElse (fun _ => f x) := by
  show (x :: t).foldl (lastStep f) none = _
  rw [List.foldl_cons, foldl_lastStep]
  cases hls : lastSome? f t <;> cases hfx : f x <;>
    simp [lastStep, hfx, Option.some_orElse', Option.none_orElse']

theorem lastVal_cons (kv : Str × Str) (t : List (Str × Str)) (k : Str) :
    lastVal (kv :: t) k =
      (lastVal t k).orElse (fun _ => if kv.1 = k then some kv.2 else none) := by
  unfold lastVal
  rw [lastSome?_cons]

theorem lookup_overlayEnvList (m : EnvMap) (l : List (Str × Str)) (k : Str) :
    envLookup? (overlayEnvList m l) k =
      (lastVal l k).orElse (fun _ => envLookup? m k) := by
  induction l generalizing m with
  | nil => simp [overlayEnvList, lastVal, lastSome?, Option.none_orElse']
  | cons kv t ih =>
      show envLookup? (overlayEnvList (envSet m kv.1 kv.2) t) k = _
      rw [ih, lastVal_cons, envLookup?_envSet]
      rcases hlv : lastVal t k with _ | v
      · rw [Option.none_orElse', Option.none_orElse']
        by_cases hk : kv.1 = k
        · subst hk
          simp [Option.some_orElse']
        · have hk' : ¬ k = kv.1 := fun h => hk h.symm
          simp [hk, hk', Option.none_orElse']
      · simp [Option.some_orElse']

theorem nodupKeys_overlayEnvList (m : EnvMap) (l : List (Str × Str))
    (h : (keysOf m).Nodup) : (keysOf (overlayEnvList m l)).Nodup := by
  induction l generalizing m with
  | nil => exact h
  | cons kv t ih => exact ih _ (nodupKeys_envSet _ _ _ h)

theorem lastVal_none_of_not_mem (t : EnvMap) (k : Str) (h : k ∉ keysOf t) :
    lastVal t k = none := by
  induction t with
  | nil => rfl
  | cons kv t ih =>
      have hhd : ¬ kv.1 = k := by
        intro he
        exact h (he ▸ List.mem_cons_self _ _)
      rw [lastVal_cons, ih (fun hm => h (List.mem_cons_of_mem _ hm)),
        Option.none_orElse']
      simp [hhd]

theorem lastVal_eq_lookup_of_nodup (m : EnvMap) (k : Str) (h : (keysOf m).Nodup) :
    lastVal m k = envLookup? m k := by
  induction m with
  | nil => simp [lastVal, lastSome?, envLookup?]
  | cons kv t ih =>
      have ht : (keysOf t).Nodup := (List.nodup_cons.mp h).2
      have hhd : kv.1 ∉ keysOf t := (List.nodup_cons.mp h).1
      by_cases hk : kv.1 = k
      · rw [lastVal_cons, lastVal_none_of_not_mem t k (fun hm => hhd (hk ▸ hm)),
          envLookup?_cons_pos _ _ _ hk, Option.none_orElse']
        simp [hk]
      · rw [lastVal_cons, ih ht, envLookup?_cons_neg _ _ _ hk]
        cases envLookup? t k <;> simp [hk, Option.some_orElse', Option.none_orElse']

theorem nodupKeys_getPublicEnvByKey (dk : Str) (apps : List Component) :
    (keysOf (getPublicEnvByKey dk apps)).Nodup := by
  unfold getPublicEnvByKey
  cases apps.find? (fun a => a.serviceShareID = dk) with
  | none => simp [keysOf]
  | some a => exact nodupKeys_overlayEnvList [] a.connectList (by simp [keysOf])

theorem lookup_depEnvStep (apps : List Component) (m : EnvMap) (deps : List Str) (K : Str) :
    envLookup? (depEnvStep apps m deps) K =
      (lastDepValue apps deps K).orElse (fun _ => envLookup? m K) := by
  induction deps generalizing m with
  | nil => simp [depEnvStep, lastDepValue, lastSome?, Option.none_orElse']
  | cons dk t ih =>
      show envLookup? (depEnvStep apps (overlayEnvList m (getPublicEnvByKey dk apps)) t) K = _
      rw [ih, lookup_overlayEnvList,
        lastVal_eq_lookup_of_nodup _ _ (nodupKeys_getPublicEnvByKey dk apps)]
      have hc : lastDepValue apps (dk :: t) K =
          (lastDepValue apps t K).orElse
            (fun _ => envLookup? (getPublicEnvByKey dk apps) K) := by
        unfold lastDepValue
        rw [lastSome?_cons]
      rw [hc]
      cases lastDepValue apps t K <;> cases envLookup? (getPublicEnvByKey dk apps) K <;>
        simp [Option.some_orElse', Option.none_orElse']

/-- A value containing no dollar byte is left unchanged by the substitution
pass. -/
theorem parseVariable_no_dollar (m : EnvMap) (v : Str) (hv : 36 ∉ v) :
    parseVariable v m = v := by
  unfold parseVariable
  induction v with
  | nil => rfl
  | cons b rest ih =>
      have hb : ¬ b = 36 := fun h => hv (h ▸ List.mem_cons_self _ _)
      show pvGo m (b :: rest) .lit = b :: rest
      simp only [pvGo, if_neg hb]
      exact congrArg (b :: ·) (ih (fun hm => hv (List.mem_cons_of_mem _ hm)))

/-- The final substitution pass preserves a binding whose value contains no
dollar byte, whatever the enumeration order. -/
theorem lookup_substPass (order : List Str) (m : EnvMap) (K v : Str)
    (h : envLookup? m K = some v) (hv : 36 ∉ v) :
    envLookup? (substPass order m) K = some v := by
  induction order generalizing m with
  | nil => exact h
  | cons k t ih =>
      show envLookup? (substPass t _) K = some v
      apply ih
      by_cases hkK : k = K
      · subst hkK
        simp only [h]
        rw [envLookup?_envSet, if_pos rfl, parseVariable_no_dollar m v hv]
      · cases hm : envLookup? m k with
        | none => simp only [hm]; exact h
        | some w =>
            simp only [hm]
            rw [envLookup?_envSet, if_neg (fun he => hkK he.symm)]
            exact h

theorem mergedEnv_eq_depEnvStep (E : Ext) (us : List Str) (apps : List Component)
    (app : Component) :
    mergedEnv E us apps app = depEnvStep apps (ownMergedEnv E us app) app.depServiceKeys := rfl

theorem resolvedEnv_eq_substPass (E : Ext) (us order : List Str) (apps : List Component)
    (app : Component) :
    resolvedEnv E us order apps app = substPass order (mergedEnv E us apps app) := rfl

/-! ### Claim C1 -/

/-- C1, counterexample: component `B` privately sets `K=bv` and depends on
`A`, whose public environment sets `K=av`; the claim says `B`'s own value
`bv` wins, but the resolved environment maps `K` to the dependency's value
`av`, because the dependency overlay runs after `B`'s own entries. -/
theorem c1_dep_env_counterexample :
    c1A.connectList = [(strBytes "K", strBytes "av")]
    ∧ c1B.envList = [(strBytes "K", strBytes "bv")]
    ∧ c1B.depServiceKeys = [c1A.serviceShareID]
    ∧ envLookup?
        (resolvedEnv extSample [] (keysOf (mergedEnv extSample [] [c1A, c1B] c1B))
          [c1A, c1B] c1B)
        (strBytes "K") = some (strBytes "av")
    ∧ strBytes "av" ≠ strBytes "bv" := by decide

/-- C1, amended: in a component's resolved environment, a key `K` exposed by
the public environment of any dependency edge resolves to the value supplied
by the last such edge — dependency values overwrite the component's own
private/public entries; the component's own merged value for `K` survives
only when no dependency edge supplies `K` (values free of the dollar byte,
so the substitution pass leaves them unchanged). -/
theorem c1_dep_env_amended (E : Ext) (us order : List Str) (apps : List Component)
    (B : Component) (K : Str) :
    (∀ v, lastDepValue apps B.depServiceKeys K = some v → 36 ∉ v →
      envLookup? (resolvedEnv E us order apps B) K = some v)
    ∧ (lastDepValue apps B.depServiceKeys K = none →
      ∀ w, envLookup? (ownMergedEnv E us B) K = some w → 36 ∉ w →
        envLookup? (resolvedEnv E us order apps B) K = some w) := by
  constructor
  · intro v hdep hv
    rw [resolvedEnv_eq_substPass]
    apply lookup_substPass _ _ _ _ _ hv
    rw [mergedEnv_eq_depEnvStep, lookup_depEnvStep, hdep]
    exact Option.some_orElse' _ _
  · intro hnone w hw hv
    rw [resolvedEnv_eq_substPass]
    apply lookup_substPass _ _ _ _ _ hv
    rw [mergedEnv_eq_depEnvStep, lookup_depEnvStep, hnone, Option.none_orElse']
    exact hw

/-- Witness for C1 amended: both branches instantiated on concrete
two-component manifests. -/
theorem c1_dep_env_amended_witness :
    (lastDepValue [c1A, c1B] c1B.depServiceKeys (strBytes "K") = some (strBytes "av")
      ∧ 36 ∉ strBytes "av"
      ∧ envLookup?
          (resolvedEnv extSample [] [strBytes "MEMORY_SIZE", strBytes "K"] [c1A, c1B] c1B)
          (strBytes "K") = some (strBytes "av"))
    ∧ (lastDepValue [c1Bsolo] c1Bsolo.depServiceKeys (strBytes "K") = none
      ∧ envLookup? (ownMergedEnv extSample [] c1Bsolo) (strBytes "K") = some (strBytes "bv")
      ∧ 36 ∉ strBytes "bv"
      ∧ envLookup?
          (resolvedEnv extSample [] [strBytes "MEMORY_SIZE", strBytes "K"] [c1Bsolo] c1Bsolo)
          (strBytes "K") = some (strBytes "bv")) := by
  refine ⟨⟨by decide, by decide, ?_⟩, ⟨by decide, by decide, by decide, ?_⟩⟩
  · exact (c1_dep_env_amended extSample [] [strBytes "MEMORY_SIZE", strBytes "K"]
      [c1A, c1B] c1B (strBytes "K")).1 (strBytes "av") (by decide) (by decide)
  · exact (c1_dep_env_amended extSample [] [strBytes "MEMORY_SIZE", strBytes "K"]
      [c1Bsolo] c1Bsolo (strBytes "K")).2 (by decide) (strBytes "bv") (by decide) (by decide)

/-! ### Claim C2 -/

/-- C2, counterexample: with a present, validating checksum sidecar but no
archive file, `isLatest` still reports latest and the orchestrator skips all
work, refuting the claimed two-sided freshness condition. -/
theorem c2_freshness_counterexample :
    isLatest ⟨true, true, false⟩ = true
    ∧ exportDecision ⟨true, true, false⟩ = ExportDecision.skipped
    ∧ (ExportFS.mk true true false).tarFileExists = false
    ∧ ((ExportFS.mk true true false).md5FileExists && (ExportFS.mk true true false).md5Valid
        && (ExportFS.mk true true false).tarFileExists) = false := by decide

/-- C2, amended: the orchestrator skips the pipeline if and only if the
checksum sidecar exists and validates; the archive-existence check sits on
the failure path only and never influences the outcome. -/
theorem c2_freshness_amended (fs : ExportFS) :
    isLatest fs = (fs.md5FileExists && fs.md5Valid)
    ∧ (exportDecision fs = ExportDecision.skipped ↔
        (fs.md5FileExists = true ∧ fs.md5Valid = true)) := by
  rcases fs with ⟨m, v, t⟩
  cases m <;> cases v <;> cases t <;> exact ⟨by decide, by decide⟩

/-! ### Claim C3 -/

/-- C3, refuted (code bug): the final substitution pass over the merged
environment of a concrete component is sensitive to the enumeration order of
the map — two permutations of the same key set yield different resolved
environments, so the pass result does not depend only on the completed
map. -/
theorem c3_subst_order_dependent :
    keysOf (mergedEnv extSample [] [c3App] c3App) =
      [strBytes "MEMORY_SIZE", [65], [66], [67]]
    ∧ List.Perm [strBytes "MEMORY_SIZE", [65], [66], [67]]
        [strBytes "MEMORY_SIZE", [66], [65], [67]]
    ∧ resolvedEnv extSample [] [strBytes "MEMORY_SIZE", [65], [66], [67]] [c3App] c3App
      ≠ resolvedEnv extSample [] [strBytes "MEMORY_SIZE", [66], [65], [67]] [c3App] c3App := by
  decide

/-! ### The service-name registry without collisions -/

theorem lastSome?_none_of_all_none {α β : Type} (f : α → Option β) (l : List α)
    (h : ∀ x ∈ l, f x = none) : lastSome? f l = none := by
  induction l with
  | nil => rfl
  | cons x t ih =>
      rw [lastSome?_cons, ih (fun x hx => h x (List.mem_cons_of_mem _ hx)),
        Option.none_orElse', h x (List.mem_cons_self _ _)]

theorem lookup_registryFold (E : Ext) (comps : List Component)
    (init : List (Str × Str)) (k : Str) :
    envLookup?
        (comps.foldl
          (fun n c => envSet n c.serviceShareID (composeName E c.serviceCname)) init) k =
      (lastSome?
          (fun c => if c.serviceShareID = k then some (composeName E c.serviceCname)
            else none) comps).orElse
        (fun _ => envLookup? init k) := by
  induction comps generalizing init with
  | nil => simp [lastSome?, Option.none_orElse']
  | cons x t ih =>
      rw [List.foldl_cons, ih, lastSome?_cons, envLookup?_envSet]
      cases lastSome?
          (fun c => if c.serviceShareID = k then some (composeName E c.serviceCname)
            else none) t with
      | some v => simp [Option.some_orElse']
      | none =>
          rw [Option.none_orElse', Option.none_orElse']
          by_cases hk : x.serviceShareID = k
          · subst hk
            simp [Option.none_orElse']
          · have hk' : ¬ k = x.serviceShareID := fun h => hk h.symm
            simp [hk, hk', Option.none_orElse']

theorem lastSome?_unique {α β : Type} (key : α → Str) (val : α → β) (l : List α)
    (B : α) (k : Str) (hNodup : (l.map key).Nodup) (hB : B ∈ l) (hkey : key B = k) :
    lastSome? (fun x => if key x = k then some (val x) else none) l = some (val B) := by
  induction l with
  | nil => cases hB
  | cons x t ih =>
      rw [lastSome?_cons]
      rcases List.mem_cons.mp hB with rfl | hBt
      · have hnone : lastSome? (fun x => if key x = k then some (val x) else none) t = none := by
          apply lastSome?_none_of_all_none
          intro y hy
          have hne : ¬ key y = k := by
            intro he
            exact (List.nodup_cons.mp hNodup).1
              ((he.trans hkey.symm) ▸ List.mem_map_of_mem key hy)
          rw [if_neg hne]
        rw [hnone, Option.none_orElse', if_pos hkey]
      · rw [ih (List.nodup_cons.mp hNodup).2 hBt, Option.some_orElse']

theorem bsnGo_no_collision (E : Ext) (us : List Str) (names : List (Str × Str))
    (set : List Str) (comps : List Component)
    (hN : (comps.map (fun c => composeName E c.serviceCname)).Nodup)
    (hset : ∀ c ∈ comps, composeName E c.serviceCname ∉ set) :
    bsnGo E us names set comps =
      comps.foldl (fun n c => envSet n c.serviceShareID (composeName E c.serviceCname))
        names := by
  induction comps generalizing us names set with
  | nil => rfl
  | cons c rest ih =>
      have hname : composeName E c.serviceCname ∉ set := hset c (List.mem_cons_self _ _)
      show (if composeName E c.serviceCname ∈ set then
          bsnGo E us.tail
            (envSet names c.serviceShareID
              (composeName E c.serviceCname ++ 45 :: (us.headD []).take 4))
            ((composeName E c.serviceCname ++ 45 :: (us.headD []).take 4) :: set) rest
        else
          bsnGo E us (envSet names c.serviceShareID (composeName E c.serviceCname))
            ((composeName E c.serviceCname) :: set) rest) = _
      rw [if_neg hname, List.foldl_cons]
      refine ih us _ _ (List.nodup_cons.mp hN).2 ?_
      intro c' hc' hmem
      rcases List.mem_cons.mp hmem with heq | hinset
      · have h1 : composeName E c'.serviceCname ∈
            List.map (fun c => composeName E c.serviceCname) rest :=
          List.mem_map_of_mem _ hc'
        have h2 : composeName E c.serviceCname ∈
            List.map (fun c => composeName E c.serviceCname) rest := heq ▸ h1
        exact (List.nodup_cons.mp hN).1 h2
      · exact hset c' (List.mem_cons_of_mem _ hc') hinset

theorem GetServiceName_no_collision (E : Ext) (us : List Str) (comps : List Component)
    (B : Component)
    (hU : (comps.map (fun c => c.serviceShareID)).Nodup)
    (hN : (comps.map (fun c => composeName E c.serviceCname)).Nodup)
    (hB : B ∈ comps) :
    GetServiceName (buildServiceNames E us comps) B.serviceShareID =
      composeName E B.serviceCname := by
  unfold GetServiceName lookupD buildServiceNames
  rw [bsnGo_no_collision E us [] [] comps hN (by simp), lookup_registryFold]
  rw [show lastSome?
      (fun c => if c.serviceShareID = B.serviceShareID
        then some (composeName E c.serviceCname) else none) comps =
      some (composeName E B.serviceCname) from
    lastSome?_unique (fun c => c.serviceShareID) (fun c => composeName E c.serviceCname)
      comps B B.serviceShareID hU hB rfl]
  rfl

theorem depServicesOf_eq_filterMap (E : Ext) (apps : List Component) (app : Component) :
    depServicesOf E apps app = app.depServiceKeys.filterMap (fun k =>
      if getDependedService k apps = [] then none
      else some (composeName E (getDependedService k apps))) := by
  suffices h : ∀ (deps : List Str) (init : List Str),
      deps.foldl
        (fun l k =>
          if getDependedService k apps = [] then l
          else l ++ [composeName E (getDependedService k apps)]) init =
      init ++ deps.filterMap (fun k =>
        if getDependedService k apps = [] then none
        else some (composeName E (getDependedService k apps))) by
    rw [depServicesOf, h app.depServiceKeys []]
    rfl
  intro deps
  induction deps with
  | nil => intro init; simp
  | cons k t ih =>
      intro init
      rw [List.foldl_cons, List.filterMap_cons]
      by_cases hk : getDependedService k apps = []
      · rw [if_pos hk, if_pos hk, ih init]
      · rw [if_neg hk, if_neg hk,
          ih (init ++ [composeName E (getDependedService k apps)]), List.append_assoc]
        rfl

/-! ### Claim C4 -/

/-- C4, counterexample: two components share the display name `x`, so the
registry gives the later one (`u2`) the suffixed key `x-abcd`; a third
component depending on `u2` gets the depends_on entry `x`, which is not the
service key `x-abcd` under which `u2` appears (it is the key of the other
component). -/
theorem c4_depends_on_counterexample :
    buildServiceNames extSample [strBytes "abcd1234"] [c4X1, c4X2, c4Y] =
      [(strBytes "u1", strBytes "x"), (strBytes "u2", strBytes "x-abcd"),
        (strBytes "u3", strBytes "y")]
    ∧ c4Y.depServiceKeys = [strBytes "u2"]
    ∧ depServicesOf extSample [c4X1, c4X2, c4Y] c4Y = [strBytes "x"]
    ∧ GetServiceName (buildServiceNames extSample [strBytes "abcd1234"] [c4X1, c4X2, c4Y])
        (strBytes "u2") = strBytes "x-abcd"
    ∧ strBytes "x" ≠ strBytes "x-abcd" := by decide

/-- C4, amended: each depends_on list consists, in edge order, of
`composeName` applied to the display name of the first manifest record
matching the edge (edges matching no record or a record with an empty
display name are dropped); when share identifiers and sanitized display
names are collision-free, every such entry equals the registry key under
which the depended-on component's service appears. -/
theorem c4_depends_on_amended (E : Ext) (us : List Str) (apps : List Component)
    (hU : (apps.map (fun c => c.serviceShareID)).Nodup)
    (hN : (apps.map (fun c => composeName E c.serviceCname)).Nodup)
    (B : Component) (hB : B ∈ apps) :
    depServicesOf E apps B = B.depServiceKeys.filterMap (fun k =>
      if getDependedService k apps = [] then none
      else some (composeName E (getDependedService k apps)))
    ∧ ∀ e ∈ depServicesOf E apps B, ∃ A, A ∈ apps
        ∧ A.serviceShareID ∈ B.depServiceKeys
        ∧ e = composeName E A.serviceCname
        ∧ GetServiceName (buildServiceNames E us apps) A.serviceShareID = e := by
  refine ⟨depServicesOf_eq_filterMap E apps B, ?_⟩
  intro e he
  rw [depServicesOf_eq_filterMap E apps B] at he
  rcases List.mem_filterMap.mp he with ⟨k, hk, hg⟩
  by_cases hd : getDependedService k apps = []
  · rw [if_pos hd] at hg
    cases hg
  · rw [if_neg hd] at hg
    rcases hfind : apps.find? (fun a => a.serviceShareID = k) with _ | A
    · exact absurd (by rw [getDependedService, hfind]) hd
    · have hA : A ∈ apps := List.mem_of_find?_eq_some hfind
      have hAk : A.serviceShareID = k := by
        have h := List.find?_some hfind
        simpa using h
      have hcname : getDependedService k apps = A.serviceCname := by
        rw [getDependedService, hfind]
      refine ⟨A, hA, hAk ▸ hk, ?_, ?_⟩
      · rw [← Option.some_inj.mp hg, hcname]
      · rw [GetServiceName_no_collision E us apps A hU hN hA,
          ← Option.some_inj.mp hg, hcname]

/-- Witness for C4 amended: a collision-free two-component manifest with one
dependency edge. -/
theorem c4_depends_on_amended_witness :
    ([c4Web, c4Db].map (fun c => c.serviceShareID)).Nodup
    ∧ ([c4Web, c4Db].map (fun c => composeName extSample c.serviceCname)).Nodup
    ∧ c4Db ∈ [c4Web, c4Db]
    ∧ depServicesOf extSample [c4Web, c4Db] c4Db = [strBytes "web"]
    ∧ ∀ e ∈ depServicesOf extSample [c4Web, c4Db] c4Db, ∃ A, A ∈ [c4Web, c4Db]
        ∧ A.serviceShareID ∈ c4Db.depServiceKeys
        ∧ e = composeName extSample A.serviceCname
        ∧ GetServiceName (buildServiceNames extSample [] [c4Web, c4Db]) A.serviceShareID = e := by
  refine ⟨by decide, by decide, by decide, by decide, ?_⟩
  exact (c4_depends_on_amended extSample [] [c4Web, c4Db] (by decide) (by decide)
    c4Db (by decide)).2

/-! ### Claim C5 -/

/-- C5, refuted (code bug): the display name `Ł` (U+0141) is not Han and is
outside `[A-Za-z0-9._-]`, yet `composeName` keeps it because the regular
expression is tested against `byte(runeValue)` — the low byte 0x41 (`A`) of
the rune — so the registry's final name violates the documented
`[a-zA-Z0-9._-]` shape. -/
theorem c5_name_registry_bug :
    composeName extSample (strBytes "Ł") = strBytes "Ł"
    ∧ buildServiceNames extSample [] [c5Comp] = [(strBytes "u1", strBytes "Ł")]
    ∧ validServiceName (strBytes "Ł") = false
    ∧ byteClassMatch ((Char.ofNat 0x141).toNat % 256) = true := by decide

/-! ### Volume building -/

theorem buildVolume_cv_ne_nil (sn : Str) (v : ComponentVolume) :
    (buildVolume sn v).2.1 ≠ [] := by
  unfold buildVolume
  by_cases h : v.volumeType = configFileVolumeType
  · simp [h]
  · cases sn <;> simp [h]

theorem ownVols_maps (sn sid : Str) (maps : List (Str × Str)) (globals : List Str)
    (vols : List ComponentVolume) :
    (ownVols sn sid maps globals vols).1 =
      vols.foldl (fun m v => envSet m (sid ++ v.volumeName) (buildVolume sn v).2.1) maps := by
  induction vols generalizing maps globals with
  | nil => rfl
  | cons v rest ih =>
      show (ownVols sn sid _ _ rest).1 = _
      rw [if_pos (buildVolume_cv_ne_nil sn v), ih, List.foldl_cons]

theorem ownVols_globals (sn sid : Str) (maps : List (Str × Str)) (globals : List Str)
    (vols : List ComponentVolume) :
    (ownVols sn sid maps globals vols).2.1 =
      globals ++ vols.filterMap (fun v =>
        if (buildVolume sn v).2.2 then none else some (buildVolume sn v).2.1) := by
  induction vols generalizing maps globals with
  | nil => simp [ownVols]
  | cons v rest ih =>
      show (ownVols sn sid _ _ rest).2.1 = _
      rw [List.filterMap_cons, ih]
      by_cases hC : (buildVolume sn v).2.2
      · rw [if_neg (fun hand => hand.2 hC), if_pos hC]
      · rw [if_pos ⟨buildVolume_cv_ne_nil sn v, hC⟩, if_neg hC, List.append_assoc]
        rfl

theorem ownVols_svols (sn sid : Str) (maps : List (Str × Str)) (globals : List Str)
    (vols : List ComponentVolume) :
    (ownVols sn sid maps globals vols).2.2 =
      vols.map (fun v => (buildVolume sn v).1) := by
  induction vols generalizing maps globals with
  | nil => rfl
  | cons v rest ih =>
      show (buildVolume sn v).1 :: (ownVols sn sid _ _ rest).2.2 = _
      rw [ih, List.map_cons]

theorem lookup_volFold_miss (sn sid : Str) (vols : List ComponentVolume)
    (maps : List (Str × Str)) (kk : Str)
    (h : ∀ v ∈ vols, sid ++ v.volumeName ≠ kk) :
    envLookup?
        (vols.foldl (fun m v => envSet m (sid ++ v.volumeName) (buildVolume sn v).2.1) maps)
        kk = envLookup? maps kk := by
  induction vols generalizing maps with
  | nil => rfl
  | cons v rest ih =>
      rw [List.foldl_cons, ih _ (fun v' hv' => h v' (List.mem_cons_of_mem _ hv')),
        envLookup?_envSet,
        if_neg (fun he => h v (List.mem_cons_self _ _) he.symm)]

theorem volPass1_globals (names : List (Str × Str)) (maps : List (Str × Str))
    (globals : List Str) (compVols : List (Str × List Str)) (comps : List Component) :
    (volPass1 names maps globals compVols comps).2.1 =
      globals ++ comps.flatMap (globContrib names) := by
  induction comps generalizing maps globals compVols with
  | nil => simp [volPass1]
  | cons c rest ih =>
      show (volPass1 names _ _ _ rest).2.1 = _
      rw [ih, ownVols_globals, List.flatMap_cons, List.append_assoc]
      rfl

theorem volPass1_maps_miss (names : List (Str × Str)) (maps : List (Str × Str))
    (globals : List Str) (compVols : List (Str × List Str)) (comps : List Component)
    (kk : Str)
    (h : ∀ c ∈ comps, ∀ v ∈ c.volumes, c.serviceShareID ++ v.volumeName ≠ kk) :
    envLookup? (volPass1 names maps globals compVols comps).1 kk = envLookup? maps kk := by
  induction comps generalizing maps globals compVols with
  | nil => rfl
  | cons c rest ih =>
      show envLookup? (volPass1 names _ _ _ rest).1 kk = _
      rw [ih _ _ _ (fun c' hc' => h c' (List.mem_cons_of_mem _ hc')), ownVols_maps,
        lookup_volFold_miss _ _ _ _ _ (h c (List.mem_cons_self _ _))]

theorem volPass1_compVols (names : List (Str × Str)) (maps : List (Str × Str))
    (globals : List Str) (compVols : List (Str × List Str)) (comps : List Component) :
    (volPass1 names maps globals compVols comps).2.2 =
      comps.foldl (fun cv c => envSet cv c.serviceShareID (ownBindsOf names c)) compVols := by
  induction comps generalizing maps globals compVols with
  | nil => rfl
  | cons c rest ih =>
      show (volPass1 names _ _ _ rest).2.2 = _
      rw [ih, List.foldl_cons, ownVols_svols]
      rfl

theorem lookup_compVolsFold (names : List (Str × Str)) (comps : List Component)
    (init : List (Str × List Str)) (k : Str) :
    envLookup?
        (comps.foldl (fun cv c => envSet cv c.serviceShareID (ownBindsOf names c)) init) k =
      (lastSome?
          (fun c => if c.serviceShareID = k then some (ownBindsOf names c) else none)
          comps).orElse
        (fun _ => envLookup? init k) := by
  induction comps generalizing init with
  | nil => simp [lastSome?, Option.none_orElse']
  | cons x t ih =>
      rw [List.foldl_cons, ih, lastSome?_cons, envLookup?_envSet]
      cases lastSome?
          (fun c => if c.serviceShareID = k then some (ownBindsOf names c) else none) t with
      | some v => simp [Option.some_orElse']
      | none =>
          rw [Option.none_orElse', Option.none_orElse']
          by_cases hk : x.serviceShareID = k
          · subst hk
            simp [Option.none_orElse']
          · have hk' : ¬ k = x.serviceShareID := fun h => hk h.symm
            simp [hk, hk', Option.none_orElse']

theorem volPass2_entry (maps : List (Str × Str)) (mnt : List VolumeRelation)
    (init : List Str) :
    mnt.foldl
        (fun acc dvol =>
          if lookupD maps (dvol.shareServiceUUID ++ dvol.volumeName) [] = [] then acc
          else acc ++
            [lookupD maps (dvol.shareServiceUUID ++ dvol.volumeName) [] ++
              58 :: dvol.volumeMountDir]) init =
      init ++ mnt.filterMap (resolveDepWith maps) := by
  induction mnt generalizing init with
  | nil => simp
  | cons d t ih =>
      rw [List.foldl_cons, List.filterMap_cons]
      by_cases hd : lookupD maps (d.shareServiceUUID ++ d.volumeName) [] = []
      · rw [if_pos hd, show resolveDepWith maps d = none from by rw [resolveDepWith, if_pos hd],
          ih init]
      · rw [if_neg hd,
          show resolveDepWith maps d =
            some (lookupD maps (d.shareServiceUUID ++ d.volumeName) [] ++
              58 :: d.volumeMountDir) from by rw [resolveDepWith, if_neg hd],
          ih _, List.append_assoc]
        rfl

theorem volPass2_miss (maps : List (Str × Str)) (compVols : List (Str × List Str))
    (comps : List Component) (kk : Str) (h : ∀ c ∈ comps, c.serviceShareID ≠ kk) :
    envLookup? (volPass2 maps compVols comps) kk = envLookup? compVols kk := by
  induction comps generalizing compVols with
  | nil => rfl
  | cons c rest ih =>
      show envLookup? (volPass2 maps _ rest) kk = _
      rw [ih _ (fun c' hc' => h c' (List.mem_cons_of_mem _ hc')), envLookup?_envSet,
        if_neg (fun he => h c (List.mem_cons_self _ _) he.symm)]

theorem volPass2_lookup (maps : List (Str × Str)) (compVols : List (Str × List Str))
    (comps : List Component) (B : Component)
    (hU : (comps.map (fun c => c.serviceShareID)).Nodup) (hB : B ∈ comps) :
    envLookup? (volPass2 maps compVols comps) B.serviceShareID =
      some (lookupD compVols B.serviceShareID [] ++
        B.mntReleationList.filterMap (resolveDepWith maps)) := by
  induction comps generalizing compVols with
  | nil => cases hB
  | cons c rest ih =>
      show envLookup? (volPass2 maps _ rest) B.serviceShareID = _
      rcases List.mem_cons.mp hB with rfl | hBt
      · have hmiss : ∀ c' ∈ rest, c'.serviceShareID ≠ B.serviceShareID := by
          intro c' hc' he
          have h1 : c'.serviceShareID ∈ List.map (fun c => c.serviceShareID) rest :=
            List.mem_map_of_mem _ hc'
          have h2 : B.serviceShareID ∈ List.map (fun c => c.serviceShareID) rest :=
            he ▸ h1
          exact (List.nodup_cons.mp hU).1 h2
        rw [volPass2_miss _ _ _ _ hmiss, envLookup?_envSet, if_pos rfl, volPass2_entry]
      · have hne : ¬ c.serviceShareID = B.serviceShareID := by
          intro he
          have h1 : B.serviceShareID ∈ List.map (fun c => c.serviceShareID) rest :=
            List.mem_map_of_mem _ hBt
          have h2 : c.serviceShareID ∈ List.map (fun c => c.serviceShareID) rest := by
            rw [he]
            exact h1
          exact (List.nodup_cons.mp hU).1 h2
        rw [ih _ (List.nodup_cons.mp hU).2 hBt]
        congr 2
        unfold lookupD
        rw [envLookup?_envSet, if_neg (fun he => hne he.symm)]

theorem GetServiceVolumes_spec (names : List (Str × Str)) (comps : List Component)
    (B : Component) (hU : (comps.map (fun c => c.serviceShareID)).Nodup) (hB : B ∈ comps) :
    GetServiceVolumes (buildVolumes names comps).1 B.serviceShareID =
      ownBindsOf names B ++
        B.mntReleationList.filterMap (resolveDepVolume names comps) := by
  unfold GetServiceVolumes buildVolumes lookupD
  rw [volPass2_lookup _ _ _ B hU hB]
  have h1 : lookupD (volPass1 names [] [] [] comps).2.2 B.serviceShareID [] =
      ownBindsOf names B := by
    unfold lookupD
    rw [volPass1_compVols, lookup_compVolsFold,
      show lastSome?
          (fun c => if c.serviceShareID = B.serviceShareID
            then some (ownBindsOf names c) else none) comps =
        some (ownBindsOf names B) from
      lastSome?_unique (fun c => c.serviceShareID) (fun c => ownBindsOf names c)
        comps B B.serviceShareID hU hB rfl]
    rfl
  rw [Option.getD_some, h1]
  rfl

theorem buildVolumes_globals (names : List (Str × Str)) (comps : List Component) :
    (buildVolumes names comps).2 = comps.flatMap (globContrib names) := by
  show (volPass1 names [] [] [] comps).2.1 = _
  rw [volPass1_globals]
  rfl

/-! ### Go path cleaning -/

theorem splitSlash_cons (b : Nat) (rest : Str) :
    splitSlash (b :: rest) =
      if b = 47 then [] :: splitSlash rest else consCurrent b (splitSlash rest) := rfl

theorem splitSlash_ne_nil (l : Str) : splitSlash l ≠ [] := by
  cases l with
  | nil => simp [splitSlash]
  | cons b rest =>
      rw [splitSlash_cons]
      by_cases h : b = 47
      · simp [h]
      · rw [if_neg h]
        cases splitSlash rest <;> simp [consCurrent]

theorem splitSlash_append_no47 (x y : Str) (h : 47 ∉ x) :
    splitSlash (x ++ 47 :: y) = x :: splitSlash y := by
  induction x with
  | nil => simp [splitSlash]
  | cons b x' ih =>
      have hb : ¬ b = 47 := fun he => h (he ▸ List.mem_cons_self _ _)
      rw [List.cons_append, splitSlash_cons, if_neg hb,
        ih (fun hm => h (List.mem_cons_of_mem _ hm))]
      rfl

theorem splitSlash_no47 (x : Str) (h : 47 ∉ x) : splitSlash x = [x] := by
  induction x with
  | nil => rfl
  | cons b x' ih =>
      have hb : ¬ b = 47 := fun he => h (he ▸ List.mem_cons_self _ _)
      rw [splitSlash_cons, if_neg hb, ih (fun hm => h (List.mem_cons_of_mem _ hm))]
      rfl

theorem joinSlash_splitSlash (r : Str) : joinSlash (splitSlash r) = r := by
  induction r with
  | nil => rfl
  | cons b r' ih =>
      rw [splitSlash_cons]
      by_cases hb : b = 47
      · subst hb
        rw [if_pos rfl]
        rcases hs : splitSlash r' with _ | ⟨s, ss⟩
        · exact absurd hs (splitSlash_ne_nil r')
        · have h1 : joinSlash ([] :: s :: ss) = [] ++ 47 :: joinSlash (s :: ss) := rfl
          rw [hs] at ih
          rw [h1, ih]
          rfl
      · rw [if_neg hb]
        rcases hs : splitSlash r' with _ | ⟨s, ss⟩
        · exact absurd hs (splitSlash_ne_nil r')
        · rw [hs] at ih
          cases ss with
          | nil =>
              have h2 : joinSlash (consCurrent b [s]) = b :: s := rfl
              have hr : s = r' := ih
              rw [h2, hr]
          | cons s2 ss2 =>
              have h3 : joinSlash (consCurrent b (s :: s2 :: ss2)) =
                  (b :: s) ++ 47 :: joinSlash (s2 :: ss2) := rfl
              have hr : s ++ 47 :: joinSlash (s2 :: ss2) = r' := ih
              rw [h3, ← hr]
              rfl

theorem foldl_cleanPush_good (rooted : Bool) (segs : List Str) (acc : List Str)
    (h : ∀ s ∈ segs, s ≠ [] ∧ s ≠ [46] ∧ s ≠ [46, 46]) :
    segs.foldl (cleanPush rooted) acc = segs.reverse ++ acc := by
  induction segs generalizing acc with
  | nil => simp
  | cons s t ih =>
      rw [List.foldl_cons]
      have hs := h s (List.mem_cons_self _ _)
      have hcp : cleanPush rooted acc s = s :: acc := by
        unfold cleanPush
        rw [if_neg (fun hor => hor.elim hs.1 hs.2.1), if_neg hs.2.2]
      rw [hcp, ih _ (fun s' hs' => h s' (List.mem_cons_of_mem _ hs')),
        List.reverse_cons, List.append_assoc]
      rfl

theorem cleanAbs_shape (p : Str) (h : cleanAbsPath p = true) :
    p.head? = some 47 ∧ ∀ s ∈ splitSlash p.tail, s ≠ [] ∧ s ≠ [46] ∧ s ≠ [46, 46] := by
  unfold cleanAbsPath at h
  split at h
  · next r =>
      refine ⟨rfl, ?_⟩
      intro s hs
      have := List.all_eq_true.mp h s hs
      exact of_decide_eq_true this
  · exact absurd h (by simp)

/-- The core `path.Join` computation for a slash-free service name and a
clean absolute mount path: joining is plain concatenation. -/
theorem goJoin_good (sn mp : Str) (hg : goodSeg sn) (hmp : cleanAbsPath mp = true) :
    goJoin sn mp = sn ++ mp := by
  obtain ⟨hne, hdot, hddot, h47⟩ := hg
  obtain ⟨hhead, hsegs⟩ := cleanAbs_shape mp hmp
  have hmp' : mp = 47 :: mp.tail := by
    cases mp with
    | nil => simp at hhead
    | cons b r =>
        simp only [List.head?_cons, Option.some_inj] at hhead
        rw [hhead]
        rfl
  obtain ⟨s0, sn', hsn⟩ : ∃ s0 sn', sn = s0 :: sn' := by
    cases sn with
    | nil => exact absurd rfl hne
    | cons a b => exact ⟨a, b, rfl⟩
  have hgo : goJoin sn mp = goClean (sn ++ 47 :: mp) := by
    unfold goJoin
    rw [if_neg (fun hand => hne hand.1), if_neg hne]
  have hsplit : splitSlash (sn ++ 47 :: mp) = sn :: [] :: splitSlash mp.tail := by
    conv_lhs => rw [hmp']
    rw [splitSlash_append_no47 sn _ h47, splitSlash_cons, if_pos rfl]
  have hpne : ¬ sn ++ 47 :: mp = [] := by
    rw [hsn]
    simp
  have hrooted : decide ((sn ++ 47 :: mp).head? = some 47) = false := by
    apply decide_eq_false
    rw [hsn, List.cons_append, List.head?_cons]
    intro heq
    have hs0 : s0 = 47 := Option.some_inj.mp heq
    rw [hsn] at h47
    exact h47 (List.mem_cons.mpr (Or.inl hs0.symm))
  have hfold : ((sn :: [] :: splitSlash mp.tail).foldl (cleanPush false) []).reverse =
      sn :: splitSlash mp.tail := by
    rw [List.foldl_cons, List.foldl_cons]
    have hcp1 : cleanPush false [] sn = [sn] := by
      unfold cleanPush
      rw [if_neg (fun hor => hor.elim hne hdot), if_neg hddot]
    have hcp2 : cleanPush false [sn] [] = [sn] := by
      unfold cleanPush
      rw [if_pos (Or.inl rfl)]
    rw [hcp1, hcp2, foldl_cleanPush_good false _ [sn] hsegs]
    simp
  rw [hgo]
  unfold goClean
  rw [if_neg hpne, hrooted, hsplit]
  unfold goCleanAux
  rw [if_neg (by simp), hfold, if_neg (by simp)]
  rcases hs : splitSlash mp.tail with _ | ⟨s, ss⟩
  · exact absurd hs (splitSlash_ne_nil _)
  · have hj : joinSlash (sn :: s :: ss) = sn ++ 47 :: joinSlash (s :: ss) := rfl
    rw [hj, ← hs, joinSlash_splitSlash, ← hmp']

theorem append_ne_dotslash (s vn t : Str) (h47 : 47 ∉ s) :
    s ++ 95 :: vn ≠ 46 :: 47 :: t := by
  cases s with
  | nil =>
      intro he
      simp at he
  | cons a s' =>
      intro he
      rw [List.cons_append] at he
      have h1 := List.cons.inj he
      cases s' with
      | nil =>
          have h2 := List.cons.inj h1.2
          simp at h2
      | cons b s'' =>
          have h2 := List.cons.inj h1.2
          exact h47 (List.mem_cons_of_mem _ (h2.1 ▸ List.mem_cons_self b s''))

theorem lookup_globalsFold (gl : List Str) (acc : List (Str × Bool)) (x : Str) :
    envLookup? (gl.foldl (fun m vol => envSet m vol false) acc) x =
      if x ∈ gl then some false else envLookup? acc x := by
  induction gl generalizing acc with
  | nil => simp
  | cons v t ih =>
      rw [List.foldl_cons, ih]
      by_cases hx : x ∈ t
      · simp [hx]
      · by_cases hv : x = v
        · simp [hx, hv, envLookup?_envSet]
        · simp [hx, hv, envLookup?_envSet]

theorem lookup_GetGlobalVolumes (gl : List Str) (x : Str) :
    envLookup? (GetGlobalVolumes gl) x = if x ∈ gl then some false else none := by
  unfold GetGlobalVolumes
  rw [lookup_globalsFold]
  rfl

theorem nodupKeys_GetGlobalVolumes (gl : List Str) :
    (keysOf (GetGlobalVolumes gl)).Nodup := by
  unfold GetGlobalVolumes
  suffices h : ∀ acc : List (Str × Bool), (keysOf acc).Nodup →
      (keysOf (gl.foldl (fun m vol => envSet m vol false) acc)).Nodup by
    exact h [] (by simp [keysOf])
  induction gl with
  | nil => intro acc hacc; exact hacc
  | cons v t ih =>
      intro acc hacc
      rw [List.foldl_cons]
      exact ih _ (nodupKeys_envSet _ _ _ hacc)

/-! ### Claim C6 -/

/-- C6: in one compose export (collision-free share identifiers, well-formed
service names, clean absolute mount paths), the global named-volume list
consists exactly of the regular volumes' generated names; every config-file
volume's bind string has the dot-slash name slash relative-path colon
mount-path shape, appears in its component's volume list, and its compose
path never enters the global named-volume set; every regular volume's bind
is its generated name colon mount path, with the name registered in the
global set and mapped, once, to a non-external volume record. -/
theorem c6_config_volume_invariant (E : Ext) (us : List Str) (comps : List Component)
    (names : List (Str × Str)) (bv : List (Str × List Str) × List Str)
    (hn : names = buildServiceNames E us comps)
    (hbv : bv = buildVolumes names comps)
    (hgood : ∀ c ∈ comps, goodSeg (GetServiceName names c.serviceShareID))
    (hmp : ∀ c ∈ comps, ∀ v ∈ c.volumes, cleanAbsPath v.volumeMountPath = true)
    (hU : (comps.map (fun c => c.serviceShareID)).Nodup) :
    bv.2 = comps.flatMap (globContrib names)
    ∧ (∀ c ∈ comps, ∀ v ∈ c.volumes, v.volumeType = configFileVolumeType →
        (buildVolume (GetServiceName names c.serviceShareID) v).1 =
          46 :: 47 :: (GetServiceName names c.serviceShareID ++
            47 :: (v.volumeMountPath.tail ++ 58 :: v.volumeMountPath))
        ∧ (buildVolume (GetServiceName names c.serviceShareID) v).1 ∈
            GetServiceVolumes bv.1 c.serviceShareID
        ∧ (buildVolume (GetServiceName names c.serviceShareID) v).2.1 ∉ bv.2)
    ∧ (∀ c ∈ comps, ∀ v ∈ c.volumes, v.volumeType ≠ configFileVolumeType →
        (buildVolume (GetServiceName names c.serviceShareID) v).1 =
          (GetServiceName names c.serviceShareID ++ 95 :: v.volumeName)
            ++ 58 :: v.volumeMountPath
        ∧ (GetServiceName names c.serviceShareID ++ 95 :: v.volumeName) ∈ bv.2
        ∧ envLookup? (GetGlobalVolumes bv.2)
            (GetServiceName names c.serviceShareID ++ 95 :: v.volumeName) = some false)
    ∧ (keysOf (GetGlobalVolumes bv.2)).Nodup := by
  subst hbv
  refine ⟨buildVolumes_globals names comps, ?_, ?_, nodupKeys_GetGlobalVolumes _⟩
  · intro c hc v hv hcfg
    have hsn := hgood c hc
    have hpath := hmp c hc v hv
    have hjoin := goJoin_good (GetServiceName names c.serviceShareID) v.volumeMountPath
      hsn hpath
    have hshape := cleanAbs_shape v.volumeMountPath hpath
    have hmp' : v.volumeMountPath = 47 :: v.volumeMountPath.tail := by
      rcases hvp : v.volumeMountPath with _ | ⟨b, r⟩
      · rw [hvp] at hshape
        simp at hshape
      · rw [hvp] at hshape
        simp only [List.head?_cons, Option.some_inj] at hshape
        rw [hshape.1]
        rfl
    refine ⟨?_, ?_, ?_⟩
    · show (buildVolume _ v).1 = _
      unfold buildVolume
      rw [if_pos hcfg]
      show (46 :: 47 :: goJoin (GetServiceName names c.serviceShareID) v.volumeMountPath)
          ++ 58 :: v.volumeMountPath = _
      rw [hjoin]
      conv_lhs => rw [hmp']
      simp [List.append_assoc]
      exact hmp'.symm
    · rw [GetServiceVolumes_spec names comps c hU hc]
      exact List.mem_append_left _
        (List.mem_map_of_mem (fun v => (buildVolume (GetServiceName names c.serviceShareID) v).1) hv)
    · intro hmem
      rw [buildVolumes_globals names comps] at hmem
      rcases List.mem_flatMap.mp hmem with ⟨c', hc', hmem'⟩
      rcases List.mem_filterMap.mp hmem' with ⟨v', hv', hsome⟩
      by_cases hC' : (buildVolume (GetServiceName names c'.serviceShareID) v').2.2
      · rw [if_pos hC'] at hsome
        cases hsome
      · rw [if_neg hC'] at hsome
        have hval := Option.some_inj.mp hsome
        have hcfgpath : (buildVolume (GetServiceName names c.serviceShareID) v).2.1 =
            46 :: 47 :: goJoin (GetServiceName names c.serviceShareID) v.volumeMountPath := by
          unfold buildVolume
          rw [if_pos hcfg]
        have hreg' : ¬ v'.volumeType = configFileVolumeType := by
          intro hcf
          apply hC'
          unfold buildVolume
          rw [if_pos hcf]
        have hthis : (buildVolume (GetServiceName names c'.serviceShareID) v').2.1 =
            GetServiceName names c'.serviceShareID ++ 95 :: v'.volumeName := by
          unfold buildVolume
          rw [if_neg hreg']
        have h47' := (hgood c' hc').2.2.2
        refine append_ne_dotslash (GetServiceName names c'.serviceShareID) v'.volumeName
          (goJoin (GetServiceName names c.serviceShareID) v.volumeMountPath) h47' ?_
        rw [← hthis, hval, hcfgpath]
  · intro c hc v hv hreg
    have hbv1 : (buildVolume (GetServiceName names c.serviceShareID) v).1 =
        (GetServiceName names c.serviceShareID ++ 95 :: v.volumeName)
          ++ 58 :: v.volumeMountPath := by
      unfold buildVolume
      rw [if_neg hreg]
    have hmem : (GetServiceName names c.serviceShareID ++ 95 :: v.volumeName) ∈
        (buildVolumes names comps).2 := by
      rw [buildVolumes_globals names comps]
      apply List.mem_flatMap.mpr
      refine ⟨c, hc, ?_⟩
      apply List.mem_filterMap.mpr
      refine ⟨v, hv, ?_⟩
      have hC : ¬ (buildVolume (GetServiceName names c.serviceShareID) v).2.2 = true := by
        unfold buildVolume
        rw [if_neg hreg]
        simp
      rw [if_neg hC]
      unfold buildVolume
      rw [if_neg hreg]
    refine ⟨hbv1, hmem, ?_⟩
    rw [lookup_GetGlobalVolumes, if_pos hmem]

/-- Witness for C6: a single component owning one config-file volume and one
regular volume. -/
theorem c6_config_volume_invariant_witness :
    (∀ c ∈ [c6App],
      goodSeg (GetServiceName (buildServiceNames extSample [] [c6App]) c.serviceShareID))
    ∧ (∀ c ∈ [c6App], ∀ v ∈ c.volumes, cleanAbsPath v.volumeMountPath = true)
    ∧ (([c6App].map (fun c => c.serviceShareID)).Nodup)
    ∧ (buildVolumes (buildServiceNames extSample [] [c6App]) [c6App]).2 =
        [c6App].flatMap (globContrib (buildServiceNames extSample [] [c6App])) := by
  refine ⟨by decide, by decide, by decide, ?_⟩
  exact (c6_config_volume_invariant extSample [] [c6App]
    (buildServiceNames extSample [] [c6App])
    (buildVolumes (buildServiceNames extSample [] [c6App]) [c6App]) rfl rfl
    (by decide) (by decide) (by decide)).1

/-! ### Claim C7 -/

/-- C7, counterexample: the `volumeMaps` registry is keyed by the plain
concatenation of share identifier and volume name, so a request for a
volume the depended-on component never declared is not always omitted.
Component `a` declares no volumes at all, yet the request for its volume
`bdata` hits the key `abdata` registered by the unrelated component `ab`
for its volume `data`, and the dependent's volume list binds that other
component's volume instead of omitting the entry. -/
theorem c7_missing_dep_volume_counterexample :
    t7A.volumes = []
    ∧ t7A ∈ [t7A, t7AB, t7B]
    ∧ (⟨strBytes "a", strBytes "bdata", strBytes "/mnt"⟩ : VolumeRelation) ∈
        t7B.mntReleationList
    ∧ (⟨strBytes "a", strBytes "bdata",
          strBytes "/mnt"⟩ : VolumeRelation).shareServiceUUID = t7A.serviceShareID
    ∧ resolveDepVolume (buildServiceNames extSample [] [t7A, t7AB, t7B]) [t7A, t7AB, t7B]
        ⟨strBytes "a", strBytes "bdata", strBytes "/mnt"⟩ =
        some (strBytes "cab_data:/mnt")
    ∧ GetServiceVolumes
        (buildVolumes (buildServiceNames extSample [] [t7A, t7AB, t7B]) [t7A, t7AB, t7B]).1
        (strBytes "b") = [strBytes "cab_data:/mnt"] := by
  decide

/-- C7, amended: a dependency volume-binding request is resolved through the
`volumeMaps` registry keyed by the concatenation of share identifier and
volume name; the request is skipped (contributing no entry) exactly when no
component volume registered that concatenated key, while every other
request is unaffected: the dependent's volume list is its own binds
followed by the successfully resolved dependency binds, in order. Volume
resolution is total, so the export proceeds, but a request for an
undeclared volume is omitted only in the absence of a concatenation
collision. -/
theorem c7_missing_dep_volume_amended (E : Ext) (us : List Str) (comps : List Component)
    (names : List (Str × Str)) (bv : List (Str × List Str) × List Str)
    (hn : names = buildServiceNames E us comps)
    (hbv : bv = buildVolumes names comps)
    (B : Component) (e : VolumeRelation)
    (hU : (comps.map (fun c => c.serviceShareID)).Nodup)
    (hB : B ∈ comps) (he : e ∈ B.mntReleationList)
    (hmiss : ∀ c ∈ comps, ∀ v ∈ c.volumes,
      c.serviceShareID ++ v.volumeName ≠ e.shareServiceUUID ++ e.volumeName) :
    GetServiceVolumes bv.1 B.serviceShareID =
      ownBindsOf names B ++ B.mntReleationList.filterMap (resolveDepVolume names comps)
    ∧ resolveDepVolume names comps e = none := by
  subst hbv
  refine ⟨GetServiceVolumes_spec names comps B hU hB, ?_⟩
  have hl : envLookup? (volPass1 names [] [] [] comps).1
      (e.shareServiceUUID ++ e.volumeName) = none := by
    rw [volPass1_maps_miss _ _ _ _ _ _ hmiss]
    rfl
  unfold resolveDepVolume resolveDepWith volumeMapsOf lookupD
  rw [hl]
  rfl

/-- Witness for C7: the dependent `c6Dep` requests one declared and one
undeclared volume of `c6App`; no concatenated key matches the undeclared
request, so it is skipped, and the other is kept. -/
theorem c7_missing_dep_volume_amended_witness :
    (([c6App, c6Dep].map (fun c => c.serviceShareID)).Nodup)
    ∧ c6Dep ∈ [c6App, c6Dep]
    ∧ (⟨strBytes "u1", strBytes "nosuch", strBytes "/mnt/x"⟩ : VolumeRelation) ∈
        c6Dep.mntReleationList
    ∧ (∀ c ∈ [c6App, c6Dep], ∀ v ∈ c.volumes,
        c.serviceShareID ++ v.volumeName ≠ strBytes "u1" ++ strBytes "nosuch")
    ∧ GetServiceVolumes
        (buildVolumes (buildServiceNames extSample [] [c6App, c6Dep]) [c6App, c6Dep]).1
        (strBytes "u2") =
      ownBindsOf (buildServiceNames extSample [] [c6App, c6Dep]) c6Dep ++
        c6Dep.mntReleationList.filterMap
          (resolveDepVolume (buildServiceNames extSample [] [c6App, c6Dep]) [c6App, c6Dep])
    ∧ resolveDepVolume (buildServiceNames extSample [] [c6App, c6Dep]) [c6App, c6Dep]
        ⟨strBytes "u1", strBytes "nosuch", strBytes "/mnt/x"⟩ = none
    ∧ GetServiceVolumes
        (buildVolumes (buildServiceNames extSample [] [c6App, c6Dep]) [c6App, c6Dep]).1
        (strBytes "u2") = [strBytes "app_data:/mnt/a-data"] := by
  refine ⟨by decide, by decide, by decide, by decide, ?_, ?_, by decide⟩
  · exact (c7_missing_dep_volume_amended extSample [] [c6App, c6Dep]
      (buildServiceNames extSample [] [c6App, c6Dep])
      (buildVolumes (buildServiceNames extSample [] [c6App, c6Dep]) [c6App, c6Dep]) rfl rfl
      c6Dep ⟨strBytes "u1", strBytes "nosuch", strBytes "/mnt/x"⟩
      (by decide) (by decide) (by decide) (by decide)).1
  · exact (c7_missing_dep_volume_amended extSample [] [c6App, c6Dep]
      (buildServiceNames extSample [] [c6App, c6Dep])
      (buildVolumes (buildServiceNames extSample [] [c6App, c6Dep]) [c6App, c6Dep]) rfl rfl
      c6Dep ⟨strBytes "u1", strBytes "nosuch", strBytes "/mnt/x"⟩
      (by decide) (by decide) (by decide) (by decide)).2

/-! ### Claim C8 -/

/-- C8: the legacy manifest reader fails exactly when the file cannot be
read or the parsed document holds zero app records, and returns the parsed
app list otherwise. -/
theorem c8_parse_apps (r : Option LegacyMeta) :
    ((∃ e, parseApps r = .error e) ↔ r = none ∨ ∃ d, r = some d ∧ d.apps = [])
    ∧ (∀ d, r = some d → d.apps ≠ [] → parseApps r = .ok d.apps) := by
  constructor
  · constructor
    · rintro ⟨e, he⟩
      cases r with
      | none => exact Or.inl rfl
      | some d =>
          refine Or.inr ⟨d, rfl, ?_⟩
          cases hd : d.apps with
          | nil => rfl
          | cons a t => simp [parseApps, hd] at he
    · rintro (rfl | ⟨d, rfl, happs⟩)
      · exact ⟨_, rfl⟩
      · exact ⟨strBytes "Not found app in the metadata", by simp [parseApps, happs]⟩
  · rintro d rfl hne
    have h1 : ¬ d.apps.length < 1 := by
      have := List.length_pos.mpr hne
      omega
    simp [parseApps, h1]

/-- Witness for C8: a one-record document is returned as parsed, a missing
file is an error. -/
theorem c8_parse_apps_witness :
    (c8Doc.apps ≠ [] ∧ parseApps (some c8Doc) = Except.ok c8Doc.apps)
    ∧ (∃ e, parseApps (none : Option LegacyMeta) = Except.error e) := by
  refine ⟨⟨by decide, (c8_parse_apps (some c8Doc)).2 c8Doc rfl (by decide)⟩, ?_⟩
  exact (c8_parse_apps none).1.mpr (Or.inl rfl)

/-! ### Claim C9 -/

/-- C9: `Mq.UpdateEndpoints` republishes the scrape configuration exactly
when the trimmed, sorted, deduplicated endpoint list differs from the stored
one; an equal list leaves the state untouched without republishing, and an
immediate second call with the same endpoints never republishes. -/
theorem c9_update_endpoints (s : Mq.MqState) (endpoints : List Str) :
    ((Mq.UpdateEndpoints s endpoints).2 = true ↔
      Mq.trimAndSort endpoints ≠ s.sortedEndpoints)
    ∧ (Mq.trimAndSort endpoints = s.sortedEndpoints →
        Mq.UpdateEndpoints s endpoints = (s, false))
    ∧ Mq.UpdateEndpoints (Mq.UpdateEndpoints s endpoints).1 endpoints =
        ((Mq.UpdateEndpoints s endpoints).1, false) := by
  have hU : ∀ s' : Mq.MqState, Mq.UpdateEndpoints s' endpoints =
      (if s'.sortedEndpoints = Mq.trimAndSort endpoints then (s', false)
       else ({ sortedEndpoints := Mq.trimAndSort endpoints }, true)) := fun _ => rfl
  by_cases h : s.sortedEndpoints = Mq.trimAndSort endpoints
  · rw [hU s, if_pos h]
    refine ⟨Iff.intro (fun hf => absurd hf Bool.false_ne_true)
      (fun hne => absurd h.symm hne), fun _ => rfl, ?_⟩
    rw [hU s, if_pos h]
  · rw [hU s, if_neg h]
    refine ⟨Iff.intro (fun _ he => h he.symm) (fun _ => rfl),
      fun he => absurd he.symm h, ?_⟩
    rw [hU ⟨Mq.trimAndSort endpoints⟩, if_pos rfl]

/-! ### Claim C10 -/

theorem consCurrent_ne_nil (b : Nat) (x : List Str) : consCurrent b x ≠ [] := by
  cases x <;> simp [consCurrent]

theorem splitOnMarker_ne_nil (l : Str) : splitOnMarker l ≠ [] := by
  unfold splitOnMarker
  split
  · simp
  · simp
  · apply consCurrent_ne_nil

theorem unicode2zhFold (rest : List Str) (n : Nat) (init : Str) (h : 1 ≤ n) :
    (rest.enumFrom n).foldl
        (fun context ic => if ic.1 < 1 then ic.2 else context ++ unicode2zhSegment ic.2)
        init =
      init ++ rest.flatMap unicode2zhSegment := by
  induction rest generalizing n init with
  | nil => simp
  | cons x t ih =>
      rw [List.enumFrom_cons, List.foldl_cons, List.flatMap_cons]
      have hn : ¬ n < 1 := Nat.not_lt.mpr h
      rw [if_neg hn, ih (n + 1) _ (by omega), List.append_assoc]

/-- C10, amended glue: `unicode2zh` keeps the first split chunk verbatim,
appends each later chunk's decoded contribution, and trims white space. -/
theorem unicode2zh_eq (u : Str) :
    unicode2zh u =
      goTrimSpace ((splitOnMarker u).headD [] ++
        ((splitOnMarker u).drop 1).flatMap unicode2zhSegment) := by
  obtain ⟨s, rest, hsplit⟩ : ∃ s rest, splitOnMarker u = s :: rest := by
    rcases hs : splitOnMarker u with _ | ⟨s, rest⟩
    · exact absurd hs (splitOnMarker_ne_nil u)
    · exact ⟨s, rest, rfl⟩
  show goTrimSpace ((splitOnMarker u).enum.foldl
      (fun context ic => if ic.1 < 1 then ic.2 else context ++ unicode2zhSegment ic.2) []) = _
  rw [hsplit]
  congr 1
  rw [List.enum_cons, List.foldl_cons, if_pos (by omega), unicode2zhFold rest 1 s le_rfl]
  rfl

/-- C10, counterexample: the segment following the escape marker in
`a\\u中a` has two characters (so the claim, which counts characters, says it
is dropped) but four bytes, so the code keeps it: the decode is attempted on
the first four bytes, fails, and the segment is preserved verbatim. -/
theorem c10_unicode2zh_counterexample :
    splitOnMarker (strBytes "a\\\\u中a") = [strBytes "a", strBytes "中a"]
    ∧ (utf8Decode (strBytes "中a")).length = 2
    ∧ (strBytes "中a").length = 4
    ∧ unicode2zh (strBytes "a\\\\u中a") = strBytes "a中a"
    ∧ strBytes "a中a" ≠ strBytes "a" := by decide

/-- C10, amended: `unicode2zh` keeps the first split chunk, and for every
chunk after an escape marker: a chunk of at most 3 bytes is dropped
entirely; a longer chunk is decoded from its first four bytes as a hex code
point, with the remaining bytes appended, or kept verbatim when those four
bytes do not parse as hex; the result is finally white-space trimmed. -/
theorem c10_unicode2zh_amended (u : Str) :
    unicode2zh u =
      goTrimSpace ((splitOnMarker u).headD [] ++
        ((splitOnMarker u).drop 1).flatMap unicode2zhSegment)
    ∧ ∀ seg : Str,
      (seg.length ≤ 3 → unicode2zhSegment seg = [])
      ∧ (3 < seg.length → parseHexInt32 (seg.take 4) = none → unicode2zhSegment seg = seg)
      ∧ (∀ zh, 3 < seg.length → parseHexInt32 (seg.take 4) = some zh →
          unicode2zhSegment seg = runeBytes zh ++ seg.drop 4) := by
  refine ⟨unicode2zh_eq u, ?_⟩
  intro seg
  refine ⟨?_, ?_, ?_⟩
  · intro hle
    unfold unicode2zhSegment
    rw [if_neg (by omega)]
  · intro hgt hnone
    unfold unicode2zhSegment
    rw [if_pos hgt, hnone]
  · intro zh hgt hsome
    unfold unicode2zhSegment
    rw [if_pos hgt, hsome]

/-- Witness for C10 amended: a three-byte chunk is dropped, a non-hex chunk
is kept, a hex chunk is decoded, and the glue equation holds on a concrete
input. -/
theorem c10_unicode2zh_amended_witness :
    ((strBytes "ab").length ≤ 3 ∧ unicode2zhSegment (strBytes "ab") = [])
    ∧ (3 < (strBytes "zzzz9").length ∧ parseHexInt32 ((strBytes "zzzz9").take 4) = none
        ∧ unicode2zhSegment (strBytes "zzzz9") = strBytes "zzzz9")
    ∧ (3 < (strBytes "5e94x").length
        ∧ parseHexInt32 ((strBytes "5e94x").take 4) = some 0x5e94
        ∧ unicode2zhSegment (strBytes "5e94x") =
            runeBytes 0x5e94 ++ (strBytes "5e94x").drop 4)
    ∧ unicode2zh (strBytes "a\\\\u0041b") =
        goTrimSpace ((splitOnMarker (strBytes "a\\\\u0041b")).headD [] ++
          ((splitOnMarker (strBytes "a\\\\u0041b")).drop 1).flatMap unicode2zhSegment) := by
  refine ⟨⟨by decide, ?_⟩, ⟨by decide, by decide, ?_⟩, ⟨by decide, by decide, ?_⟩, ?_⟩
  · exact ((c10_unicode2zh_amended (strBytes "ab")).2 (strBytes "ab")).1 (by decide)
  · exact ((c10_unicode2zh_amended (strBytes "zzzz9")).2 (strBytes "zzzz9")).2.1
      (by decide) (by decide)
  · exact ((c10_unicode2zh_amended (strBytes "5e94x")).2 (strBytes "5e94x")).2.2
      0x5e94 (by decide) (by decide)
  · exact (c10_unicode2zh_amended (strBytes "a\\\\u0041b")).1

/-- Witness for C9: an equal recomputed list (after trimming and
deduplication) does not republish. -/
theorem c9_update_endpoints_witness :
    Mq.trimAndSort [strBytes " b ", strBytes "a", strBytes "a"] =
      [strBytes "a", strBytes "b"]
    ∧ Mq.UpdateEndpoints ⟨[strBytes "a", strBytes "b"]⟩
        [strBytes " b ", strBytes "a", strBytes "a"] =
      (⟨[strBytes "a", strBytes "b"]⟩, false) := by
  refine ⟨by decide, ?_⟩
  exact (c9_update_endpoints ⟨[strBytes "a", strBytes "b"]⟩
    [strBytes " b ", strBytes "a", strBytes "a"]).2.1 (by decide)

end Rainbond
